import Mathlib

/-!
Shallow embedding of the funnel tube-construction engine
(`tubeSize.c`, `tube.c`, `algorithmRectangle.c`) over the rationals.

Doubles are modelled as `ℚ`; every array access of the C code is modelled
by an explicit bounds-checked read (`getI`), so that any out-of-bounds
access (undefined behaviour in the C source) surfaces as `none`.
C `int` indices and sizes are modelled as `ℤ`.
-/

set_option maxRecDepth 4000

/-- Tolerance used by the universal numerical-equality predicate `equ`:
the C macro is `equ(a,b) = fabs(a-b) < 1e-10`. -/
def eps : ℚ := 1 / 10000000000

/-- The universal numerical-equality predicate of the core:
`equ a b` iff `|a - b| < 1e-10`. -/
def equ (a b : ℚ) : Prop := |a - b| < eps

instance (a b : ℚ) : Decidable (equ a b) := by unfold equ; infer_instance

theorem equ_iff (a b : ℚ) : equ a b ↔ -eps < a - b ∧ a - b < eps := by
  unfold equ; rw [abs_lt]

theorem equ_neg (a b : ℚ) : equ (-a) (-b) ↔ equ a b := by
  unfold equ
  rw [show -a - -b = -(a - b) by ring, abs_neg]

theorem equ_self (a : ℚ) : equ a a := by
  unfold equ eps; simp

/-- The C macro `sign(a) = (a>0) ? 1 : ((a<0) ? -1 : 0)` (strict comparisons). -/
def sign (a : ℚ) : ℚ := if a > 0 then 1 else if a < 0 then -1 else 0

/-- Bounds-checked array read at a C `int` index: a negative index or an
index at or past the end of the array is undefined behaviour in the C
source and is modelled as `none`. -/
def getI (l : List ℚ) (i : ℤ) : Option ℚ :=
  if 0 ≤ i then l.get? i.toNat else none

theorem getI_eq_some {l : List ℚ} {i : ℤ} {v : ℚ} (h : getI l i = some v) :
    0 ≤ i ∧ i.toNat < l.length ∧ l.get? i.toNat = some v := by
  unfold getI at h
  split at h
  · exact ⟨by assumption, List.get?_eq_some.mp h |>.1, h⟩
  · exact absurd h (by simp)

theorem getI_ofNat (l : List ℚ) (i : ℕ) : getI l i = l.get? i := by
  unfold getI; simp

/-- `struct data`: a curve given by two coordinate arrays and a count. -/
structure Data where
  x : List ℚ
  y : List ℚ
  n : ℤ

/-- `struct tolerances`. -/
structure Tolerances where
  atolx : ℚ
  atoly : ℚ
  rtolx : ℚ
  rtoly : ℚ

/-! ## tubeSize.c -/

/-- Loop of `minValue`: `for (i=0; i<size; i++) if (array[i] < min) min = array[i];`. -/
def minLoop (array : List ℚ) (size : ℤ) (i : ℤ) (m : ℚ) : Option ℚ :=
  if h : i < size then
    match getI array i with
    | some a => minLoop array size (i + 1) (if a < m then a else m)
    | none => none
  else some m
termination_by (size - i).toNat
decreasing_by omega

/-- `minValue`: reads `array[0]` unconditionally, then scans the first `size` entries. -/
def minValue (array : List ℚ) (size : ℤ) : Option ℚ := do
  let first ← getI array 0
  minLoop array size 0 first

/-- Loop of `maxValue`. -/
def maxLoop (array : List ℚ) (size : ℤ) (i : ℤ) (m : ℚ) : Option ℚ :=
  if h : i < size then
    match getI array i with
    | some a => maxLoop array size (i + 1) (if a > m then a else m)
    | none => none
  else some m
termination_by (size - i).toNat
decreasing_by omega

/-- `maxValue`: reads `array[0]` unconditionally, then scans the first `size` entries. -/
def maxValue (array : List ℚ) (size : ℤ) : Option ℚ := do
  let first ← getI array 0
  maxLoop array size 0 first

/-- `setData`: returns `(rangeX, rangeY, maxX, maxY)` of the reference curve. -/
def setData (refData : Data) : Option (ℚ × ℚ × ℚ × ℚ) := do
  let maxX ← maxValue refData.x refData.n
  let minX ← minValue refData.x refData.n
  let maxY ← maxValue refData.y refData.n
  let minY ← minValue refData.y refData.n
  pure (maxX - minX, maxY - minY, maxX, maxY)

/-- Result of `tubeSize`: either the `exit(1)` on a bad tolerance pair, or the
four returned array slots `(tubeSize[0], tubeSize[1], tubeSize[2], tubeSize[3])`. -/
inductive TubeSizeResult where
  | badTolerance : TubeSizeResult
  | ok : ℚ → ℚ → ℚ → ℚ → TubeSizeResult
deriving DecidableEq

/-- `tubeSize`: computes the rectangle half-width and half-height.
Faithful to the source, including line 163 (`tubeSize[3] = rangeX;`):
the fourth returned slot holds `rangeX`, not `rangeY`. -/
def tubeSize (refData : Data) (tol : Tolerances) : Option TubeSizeResult := do
  let sd ← setData refData
  let rangeX := sd.1
  let rangeY := sd.2.1
  let maxX := sd.2.2.1
  let maxY := sd.2.2.2
  if (equ tol.atolx 0 ∧ equ tol.rtolx 0) ∨ (equ tol.atoly 0 ∧ equ tol.rtoly 0) then
    pure .badTolerance
  else
    let x := if equ rangeX 0 then max (1 / 100000) (1 / 100000 * |maxX|)
             else max tol.atolx (tol.rtolx * rangeX)
    let y := if equ rangeY 0 then max (1 / 100000) (1 / 100000 * |maxY|)
             else max tol.atoly (tol.rtoly * rangeY)
    pure (.ok x y rangeX rangeX)

/-- The bad-tolerance test of `tubeSize` (tubeSize.c line 143). -/
def badTol (tol : Tolerances) : Prop :=
  (equ tol.atolx 0 ∧ equ tol.rtolx 0) ∨ (equ tol.atoly 0 ∧ equ tol.rtoly 0)

instance (tol : Tolerances) : Decidable (badTol tol) := by unfold badTol; infer_instance

theorem minLoop_isSome (array : List ℚ) (size : ℤ) (hs : size ≤ (array.length : ℤ))
    (i : ℤ) (m : ℚ) (hi : 0 ≤ i) : ∃ r, minLoop array size i m = some r := by
  rw [minLoop]
  split
  · have hlt : i.toNat < array.length := by omega
    have : getI array i = some (array.get ⟨i.toNat, hlt⟩) := by
      unfold getI
      rw [if_pos hi, List.get?_eq_get hlt]
    rw [this]
    exact minLoop_isSome array size hs (i + 1) _ (by omega)
  · exact ⟨m, rfl⟩
termination_by (size - i).toNat
decreasing_by omega

theorem maxLoop_isSome (array : List ℚ) (size : ℤ) (hs : size ≤ (array.length : ℤ))
    (i : ℤ) (m : ℚ) (hi : 0 ≤ i) : ∃ r, maxLoop array size i m = some r := by
  rw [maxLoop]
  split
  · have hlt : i.toNat < array.length := by omega
    have : getI array i = some (array.get ⟨i.toNat, hlt⟩) := by
      unfold getI
      rw [if_pos hi, List.get?_eq_get hlt]
    rw [this]
    exact maxLoop_isSome array size hs (i + 1) _ (by omega)
  · exact ⟨m, rfl⟩
termination_by (size - i).toNat
decreasing_by omega

theorem minValue_isSome (array : List ℚ) (size : ℤ) (hne : array ≠ [])
    (hs : size ≤ (array.length : ℤ)) : ∃ r, minValue array size = some r := by
  unfold minValue
  have hlen : 0 < array.length := List.length_pos.mpr hne
  have h0 : getI array 0 = some (array.get ⟨0, hlen⟩) := by
    unfold getI
    rw [if_pos le_rfl]
    simpa using List.get?_eq_get hlen
  rw [h0]
  obtain ⟨r, hr⟩ := minLoop_isSome array size hs 0 _ le_rfl
  exact ⟨r, by simpa using hr⟩

theorem maxValue_isSome (array : List ℚ) (size : ℤ) (hne : array ≠ [])
    (hs : size ≤ (array.length : ℤ)) : ∃ r, maxValue array size = some r := by
  unfold maxValue
  have hlen : 0 < array.length := List.length_pos.mpr hne
  have h0 : getI array 0 = some (array.get ⟨0, hlen⟩) := by
    unfold getI
    rw [if_pos le_rfl]
    simpa using List.get?_eq_get hlen
  rw [h0]
  obtain ⟨r, hr⟩ := maxLoop_isSome array size hs 0 _ le_rfl
  exact ⟨r, by simpa using hr⟩

theorem setData_isSome (refData : Data) (hx : refData.x ≠ []) (hy : refData.y ≠ [])
    (hnx : refData.n ≤ (refData.x.length : ℤ)) (hny : refData.n ≤ (refData.y.length : ℤ)) :
    ∃ sd, setData refData = some sd := by
  obtain ⟨a, ha⟩ := maxValue_isSome refData.x refData.n hx hnx
  obtain ⟨b, hb⟩ := minValue_isSome refData.x refData.n hx hnx
  obtain ⟨c, hc⟩ := maxValue_isSome refData.y refData.n hy hny
  obtain ⟨d, hd⟩ := minValue_isSome refData.y refData.n hy hny
  exact ⟨(a - b, c - d, a, c), by simp [setData, ha, hb, hc, hd]⟩

/-- Claim C3 (code_bug evidence): on the reference curve x = [0,2], y = [0,1]
(rangeX = 2, rangeY = 1) with tolerances atolx = atoly = 1, rtolx = rtoly = 0,
the resolver returns (1, 1, 2, 2): its fourth output slot holds rangeX = 2,
not rangeY = 1 (tubeSize.c line 163 stores rangeX in tubeSize[3]). -/
theorem C3_tubeSize_fourth_slot_rangeX :
    tubeSize ⟨[0, 2], [0, 1], 2⟩ ⟨1, 1, 0, 0⟩ = some (.ok 1 1 2 2) ∧
    setData ⟨[0, 2], [0, 1], 2⟩ = some (2, 1, 2, 1) ∧ (2 : ℚ) ≠ 1 := by
  refine ⟨?_, ?_, by norm_num⟩ <;>
    norm_num [tubeSize, setData, maxValue, minValue, maxLoop, minLoop, getI, List.get?,
      equ_iff, eps]

/-- Claim C4: whenever the resolver succeeds, the half-width satisfies
xLen = max(1e-5, 1e-5·|maxX|) if rangeX ≈ 0 and xLen = max(atolx, rtolx·rangeX)
otherwise, and symmetrically for yLen with rangeY, atoly, rtoly, maxY. -/
theorem C4_tubeSize_lengths (refData : Data) (tol : Tolerances) (maxX minX maxY minY : ℚ)
    (h1 : maxValue refData.x refData.n = some maxX)
    (h2 : minValue refData.x refData.n = some minX)
    (h3 : maxValue refData.y refData.n = some maxY)
    (h4 : minValue refData.y refData.n = some minY)
    (xLen yLen rX rY : ℚ)
    (hok : tubeSize refData tol = some (.ok xLen yLen rX rY)) :
    rX = maxX - minX ∧
    (equ (maxX - minX) 0 → xLen = max (1 / 100000) (1 / 100000 * |maxX|)) ∧
    (¬ equ (maxX - minX) 0 → xLen = max tol.atolx (tol.rtolx * (maxX - minX))) ∧
    (equ (maxY - minY) 0 → yLen = max (1 / 100000) (1 / 100000 * |maxY|)) ∧
    (¬ equ (maxY - minY) 0 → yLen = max tol.atoly (tol.rtoly * (maxY - minY))) := by
  have hsd : setData refData = some (maxX - minX, maxY - minY, maxX, maxY) := by
    simp [setData, h1, h2, h3, h4]
  unfold tubeSize at hok
  rw [hsd] at hok
  by_cases hc : (equ tol.atolx 0 ∧ equ tol.rtolx 0) ∨ (equ tol.atoly 0 ∧ equ tol.rtoly 0)
  · simp [hc] at hok
  · simp only [Option.bind_eq_bind, Option.some_bind, if_neg hc, Option.pure_def,
      Option.some_inj] at hok
    have hinj := TubeSizeResult.ok.inj hok
    obtain ⟨a, b, c, d⟩ := hinj
    subst a b c
    refine ⟨rfl, ?_, ?_, ?_, ?_⟩ <;> intro h
    · rw [if_pos h]
    · rw [if_neg h]
    · rw [if_pos h]
    · rw [if_neg h]

theorem C4_tubeSize_lengths_witness :
    maxValue [0, 2] 2 = some 2 ∧ minValue [0, 2] 2 = some 0 ∧
    maxValue [0, 1] 2 = some 1 ∧ minValue [0, 1] 2 = some 0 ∧
    tubeSize ⟨[0, 2], [0, 1], 2⟩ ⟨1, 1, 0, 0⟩ = some (.ok 1 1 2 2) ∧
    ((2 : ℚ) = 2 - 0 ∧
     (equ ((2 : ℚ) - 0) 0 → (1 : ℚ) = max (1 / 100000) (1 / 100000 * |(2 : ℚ)|)) ∧
     (¬ equ ((2 : ℚ) - 0) 0 → (1 : ℚ) = max (1 : ℚ) (0 * (2 - 0))) ∧
     (equ ((1 : ℚ) - 0) 0 → (1 : ℚ) = max (1 / 100000) (1 / 100000 * |(1 : ℚ)|)) ∧
     (¬ equ ((1 : ℚ) - 0) 0 → (1 : ℚ) = max (1 : ℚ) (0 * (1 - 0)))) := by
  have p1 : maxValue [0, 2] 2 = some 2 := by
    norm_num [maxValue, maxLoop, getI, List.get?]
  have p2 : minValue [0, 2] 2 = some 0 := by
    norm_num [minValue, minLoop, getI, List.get?]
  have p3 : maxValue [0, 1] 2 = some 1 := by
    norm_num [maxValue, maxLoop, getI, List.get?]
  have p4 : minValue [0, 1] 2 = some 0 := by
    norm_num [minValue, minLoop, getI, List.get?]
  have p5 : tubeSize ⟨[0, 2], [0, 1], 2⟩ ⟨1, 1, 0, 0⟩ = some (.ok 1 1 2 2) := by
    norm_num [tubeSize, setData, maxValue, minValue, maxLoop, minLoop, getI, List.get?,
      equ_iff, eps]
  exact ⟨p1, p2, p3, p4, p5,
    C4_tubeSize_lengths ⟨[0, 2], [0, 1], 2⟩ ⟨1, 1, 0, 0⟩ 2 0 1 0 p1 p2 p3 p4 1 1 2 2 p5⟩

/-- Claim C5: on any well-formed reference curve, the resolver exits with the
bad-tolerance error iff both x-tolerances are ≈ 0 or both y-tolerances are
≈ 0 (1e-10 predicate); for every other tolerance quadruple it succeeds. -/
theorem C5_badTolerance_iff (refData : Data) (tol : Tolerances)
    (hx : refData.x ≠ []) (hy : refData.y ≠ [])
    (hnx : refData.n ≤ (refData.x.length : ℤ)) (hny : refData.n ≤ (refData.y.length : ℤ)) :
    (tubeSize refData tol = some .badTolerance ↔ badTol tol) ∧
    (¬ badTol tol → ∃ xLen yLen rX rY, tubeSize refData tol = some (.ok xLen yLen rX rY)) := by
  obtain ⟨sd, hsd⟩ := setData_isSome refData hx hy hnx hny
  have key : tubeSize refData tol =
      if badTol tol then some .badTolerance
      else some (.ok
        (if equ sd.1 0 then max (1 / 100000) (1 / 100000 * |sd.2.2.1|)
         else max tol.atolx (tol.rtolx * sd.1))
        (if equ sd.2.1 0 then max (1 / 100000) (1 / 100000 * |sd.2.2.2|)
         else max tol.atoly (tol.rtoly * sd.2.1))
        sd.1 sd.1) := by
    unfold tubeSize badTol
    rw [hsd]
    rfl
  by_cases hc : badTol tol
  · rw [key, if_pos hc]
    exact ⟨⟨fun _ => hc, fun _ => rfl⟩, fun hn => absurd hc hn⟩
  · rw [key, if_neg hc]
    exact ⟨⟨fun h => absurd (Option.some_inj.mp h) (by simp), fun h => absurd h hc⟩,
      fun _ => ⟨_, _, _, _, rfl⟩⟩

theorem C5_badTolerance_iff_witness :
    (([0, 2] : List ℚ) ≠ [] ∧ ([0, 1] : List ℚ) ≠ [] ∧
     (2 : ℤ) ≤ (([0, 2] : List ℚ).length : ℤ) ∧ (2 : ℤ) ≤ (([0, 1] : List ℚ).length : ℤ)) ∧
    ((tubeSize ⟨[0, 2], [0, 1], 2⟩ ⟨1, 1, 0, 0⟩ = some .badTolerance ↔ badTol ⟨1, 1, 0, 0⟩) ∧
     (¬ badTol ⟨1, 1, 0, 0⟩ →
       ∃ xLen yLen rX rY, tubeSize ⟨[0, 2], [0, 1], 2⟩ ⟨1, 1, 0, 0⟩ =
         some (.ok xLen yLen rX rY))) := by
  have q1 : ([0, 2] : List ℚ) ≠ [] := by simp
  have q2 : ([0, 1] : List ℚ) ≠ [] := by simp
  have q3 : (2 : ℤ) ≤ (([0, 2] : List ℚ).length : ℤ) := by simp
  have q4 : (2 : ℤ) ≤ (([0, 1] : List ℚ).length : ℤ) := by simp
  exact ⟨⟨q1, q2, q3, q4⟩, C5_badTolerance_iff ⟨[0, 2], [0, 1], 2⟩ ⟨1, 1, 0, 0⟩ q1 q2 q3 q4⟩

/-! ## tube.c -/

/-- Inner while loop of `interpolateValues` (tube.c lines 78-82): step the
cursor `j` while `sourceX[j] < targetX[i]` and `j+1 < sourceLength`,
re-reading `x1 = sourceX[j]`, `y1 = sourceY[j]` after each step. -/
def stepCursor (sourceX sourceY : List ℚ) (sourceLength : ℤ) (x : ℚ)
    (j : ℤ) (x1 y1 : ℚ) : Option (ℤ × ℚ × ℚ) :=
  if h : x1 < x ∧ j + 1 < sourceLength then do
    let x1' ← getI sourceX (j + 1)
    let y1' ← getI sourceY (j + 1)
    stepCursor sourceX sourceY sourceLength x (j + 1) x1' y1'
  else some (j, x1, y1)
termination_by (sourceLength - j).toNat
decreasing_by omega

/-- Body of the `for` loop of `interpolateValues` (tube.c lines 61-93),
accumulating the produced `targetY` values. -/
def interpLoop (sourceX sourceY : List ℚ) (sourceLength : ℤ) (targetX : List ℚ)
    (targetLength : ℤ) (i : ℤ) (j : ℤ) (acc : List ℚ) : Option (List ℚ) :=
  if h : i < targetLength then do
    let x ← getI targetX i
    let xlast ← getI sourceX (sourceLength - 1)
    if xlast < x then
      -- prevent extrapolating: truncate targetY to length i and stop
      some acc
    else do
      let x1 ← getI sourceX j
      let y1 ← getI sourceY j
      let s ← stepCursor sourceX sourceY sourceLength x j x1 y1
      let x0 ← getI sourceX (s.1 - 1)
      let y0 ← getI sourceY (s.1 - 1)
      let v := if ¬ equ ((s.2.1 - x0) * (x - x0)) 0
               then y0 + (s.2.2 - y0) / (s.2.1 - x0) * (x - x0)
               else y0
      interpLoop sourceX sourceY sourceLength targetX targetLength (i + 1) s.1 (acc ++ [v])
  else some acc
termination_by (targetLength - i).toNat
decreasing_by omega

/-- `interpolateValues` from tube.c.  The `sourceY == NULL || sourceLength == 0`
guard returns `sourceY` unchanged (the null-pointer half is not representable
for lists). -/
def interpolateValues (sourceX sourceY : List ℚ) (sourceLength : ℤ)
    (targetX : List ℚ) (targetLength : ℤ) : Option (List ℚ) :=
  if sourceLength = 0 then some sourceY
  else interpLoop sourceX sourceY sourceLength targetX targetLength 0 1 []

/-- `struct errorReport`. -/
structure ErrorReport where
  original : Data
  diff : Data

/-- Loop of `compare` (tube.c lines 145-174).  The C code reads
`testY[i]`, `lower[i]`, `upper[i]`, `testX[i]` in the body (the reads are
grouped here; all four are at the same index `i`). -/
def compareLoop (lower upper : List ℚ) (testY testX : List ℚ) (m : ℤ) (i : ℤ)
    (origX origY : List ℚ) (origN : ℤ) (diffX diffY : List ℚ) : Option ErrorReport :=
  if h : i < m then do
    let ty ← getI testY i
    let lo ← getI lower i
    let up ← getI upper i
    let tx ← getI testX i
    if ty < lo ∨ up < ty then
      let v := if ty < lo then lo - ty else ty - up
      compareLoop lower upper testY testX m (i + 1)
        (origX ++ [tx]) (origY ++ [v]) (origN + 1) (diffX ++ [tx]) (diffY ++ [v])
    else
      compareLoop lower upper testY testX m (i + 1)
        origX origY origN (diffX ++ [tx]) (diffY ++ [0])
  else some ⟨⟨origX, origY, origN⟩, ⟨diffX, diffY, m⟩⟩
termination_by (m - i).toNat
decreasing_by all_goals omega

/-- `compare` from tube.c: `err->diff.n = min(testLen, refLen)` and the loop
runs over `i < err->diff.n`. -/
def compare (lower upper : List ℚ) (refLen : ℤ) (testY testX : List ℚ)
    (testLen : ℤ) : Option ErrorReport :=
  compareLoop lower upper testY testX (min testLen refLen) 0 [] [] 0 [] []

/-- `validate` from tube.c: interpolates both envelopes onto `test.x` and then
calls `compare` with `refLen := test.n` (not the length of the possibly
truncated interpolated arrays). -/
def validate (lower upper test : Data) : Option ErrorReport := do
  let newLower ← interpolateValues lower.x lower.y lower.n test.x test.n
  let newUpper ← interpolateValues upper.x upper.y upper.n test.x test.n
  compare newLower newUpper test.n test.y test.x test.n

/-- Claim C2 (code_bug evidence): lower = [(0,0),(1,0)], upper = [(0,1),(1,1)],
test = [(0,1/2),(2,1/2)].  The no-extrapolation rule truncates both
interpolated bounds to a single entry (test x = 2 lies beyond the envelope
end x = 1), yet `validate` passes `test.n = 2` as `refLen` to `compare`, so the
comparison loop runs to `min(2,2) = 2` and reads `lower[1]` past the end of the
1-element interpolated array: undefined behaviour, modelled as `none`. -/
theorem C2_validate_reads_out_of_bounds :
    interpolateValues [0, 1] [0, 0] 2 [0, 2] 2 = some [0] ∧
    interpolateValues [0, 1] [1, 1] 2 [0, 2] 2 = some [1] ∧
    validate ⟨[0, 1], [0, 0], 2⟩ ⟨[0, 1], [1, 1], 2⟩ ⟨[0, 2], [1/2, 1/2], 2⟩ = none := by
  have e1 : interpolateValues [0, 1] [0, 0] 2 [0, 2] 2 = some [0] := by
    rw [interpolateValues]
    norm_num
    rw [interpLoop]
    norm_num [getI, List.get?]
    rw [stepCursor]
    norm_num [equ_iff, eps]
    rw [interpLoop]
    norm_num [getI, List.get?]
  have e2 : interpolateValues [0, 1] [1, 1] 2 [0, 2] 2 = some [1] := by
    rw [interpolateValues]
    norm_num
    rw [interpLoop]
    norm_num [getI, List.get?]
    rw [stepCursor]
    norm_num [equ_iff, eps]
    rw [interpLoop]
    norm_num [getI, List.get?]
  have e3 : compare [0] [1] 2 [1/2, 1/2] [0, 2] 2 = none := by
    show compareLoop [0] [1] [1/2, 1/2] [0, 2] (min 2 2) 0 [] [] 0 [] [] = none
    rw [compareLoop]
    norm_num [getI, List.get?]
    rw [compareLoop]
    norm_num [getI, List.get?]
  refine ⟨e1, e2, ?_⟩
  simp only [validate, e1, e2, Option.bind_eq_bind, Option.some_bind]
  exact e3

theorem getI_nat (l : List ℚ) (n : ℕ) (h : n < l.length) :
    getI l (n : ℤ) = some (l.getD n 0) := by
  unfold getI
  rw [if_pos (Int.ofNat_nonneg n)]
  rw [Int.toNat_natCast]
  rw [List.getD_eq_getElem l 0 h, List.get?_eq_get h]
  simp [List.get_eq_getElem]

theorem sorted_getD_mono {l : List ℚ} (h : List.Sorted (· ≤ ·) l) {a b : ℕ}
    (hab : a ≤ b) (hb : b < l.length) : l.getD a 0 ≤ l.getD b 0 := by
  have ha : a < l.length := lt_of_le_of_lt hab hb
  rw [List.getD_eq_getElem l 0 ha, List.getD_eq_getElem l 0 hb]
  have := h.rel_get_of_le (show (⟨a, ha⟩ : Fin l.length) ≤ ⟨b, hb⟩ from hab)
  simpa [List.get_eq_getElem] using this

theorem getD_mem {l : List ℚ} {n : ℕ} (h : n < l.length) : l.getD n 0 ∈ l := by
  rw [List.getD_eq_getElem l 0 h]
  exact List.getElem_mem h

/-- Claim C6 (counterexample): the interpolator is not free of extrapolation.
For the sorted two-point source sx = [0, 1], sy = [0, 1] and the single
below-range target tx = [-1] (sn = 2; no truncation, since -1 ≤ sx[1]), the
code produces ty = [-1]: the linear extension of the first source segment at
x = -1.  No bracketing segment of the source contains -1, so both the
"never extrapolates" and the "bracketing segment" parts of the claim fail
even for sn ≥ 2.  Additionally, for a one-point source (sn = 1) the cursor
starts at j = 1 unconditionally and reads sx[1] past the end of the source:
undefined behaviour, modelled as `none`, where the claim (hypothesis sn > 0)
asserts an output of length 1. -/
theorem C6_interpolate_extrapolates_left :
    interpolateValues [0, 1] [0, 1] 2 [-1] 1 = some [-1]
      ∧ interpolateValues [0] [5] 1 [0] 1 = none := by
  constructor
  · rw [interpolateValues]
    norm_num
    rw [interpLoop]
    norm_num [getI, List.get?]
    rw [stepCursor]
    norm_num [equ_iff, eps]
    rw [interpLoop]
    norm_num
  · rw [interpolateValues]
    norm_num
    rw [interpLoop]
    norm_num [getI, List.get?]

/-- Interpolated value on segment (j-1, j) of the source at abscissa `x`,
including the division-by-zero fallback, exactly as computed by tube.c
lines 84-92; used to state the specification of `interpolateValues`. -/
def interpFormula (sourceX sourceY : List ℚ) (j : ℕ) (x : ℚ) : ℚ :=
  let x1 := sourceX.getD j 0
  let y1 := sourceY.getD j 0
  let x0 := sourceX.getD (j - 1) 0
  let y0 := sourceY.getD (j - 1) 0
  if ¬ equ ((x1 - x0) * (x - x0)) 0 then y0 + (y1 - y0) / (x1 - x0) * (x - x0) else y0


theorem getI_nat' (l : List ℚ) (n : ℕ) (hsy : n < l.length) (i : ℤ) (hi : i = (n : ℤ)) :
    getI l i = some (l.getD n 0) := by
  rw [hi]; exact getI_nat l n hsy

theorem stepCursor_spec (sourceX sourceY : List ℚ) (hsy : sourceY.length = sourceX.length)
    (x : ℚ) (j : ℕ) (hj : j < sourceX.length) :
    ∃ jf : ℕ, j ≤ jf ∧ jf < sourceX.length ∧
      stepCursor sourceX sourceY (sourceX.length : ℤ) x (j : ℤ)
        (sourceX.getD j 0) (sourceY.getD j 0)
        = some ((jf : ℤ), sourceX.getD jf 0, sourceY.getD jf 0) ∧
      (x ≤ sourceX.getD jf 0 ∨ jf + 1 = sourceX.length) ∧
      (j < jf → sourceX.getD (jf - 1) 0 < x) := by
  rw [stepCursor]
  by_cases hc : sourceX.getD j 0 < x ∧ (j : ℤ) + 1 < (sourceX.length : ℤ)
  · rw [dif_pos hc]
    have hj1 : j + 1 < sourceX.length := by
      have := hc.2; omega
    have hx1 : getI sourceX ((j : ℤ) + 1) = some (sourceX.getD (j + 1) 0) :=
      getI_nat' sourceX (j + 1) hj1 _ (by push_cast; ring)
    have hy1 : getI sourceY ((j : ℤ) + 1) = some (sourceY.getD (j + 1) 0) :=
      getI_nat' sourceY (j + 1) (by omega) _ (by push_cast; ring)
    rw [hx1, hy1]
    simp only [Option.bind_eq_bind, Option.some_bind, Option.bind_some]
    obtain ⟨jf, h1, h2, h3, h4, h5⟩ := stepCursor_spec sourceX sourceY hsy x (j + 1) hj1
    refine ⟨jf, by omega, h2, ?_, h4, ?_⟩
    · rw [show ((j : ℤ) + 1) = ((j + 1 : ℕ) : ℤ) by push_cast; ring]
      exact h3
    · intro hlt
      rcases Nat.lt_or_ge (j + 1) jf with hgt | hle
      · exact h5 hgt
      · have : jf = j + 1 := by omega
        subst this
        simpa using hc.1
  · rw [dif_neg hc]
    refine ⟨j, le_rfl, hj, rfl, ?_, fun h => absurd h (lt_irrefl _)⟩
    rcases not_and_or.mp hc with h | h
    · exact Or.inl (le_of_not_lt h)
    · right
      omega
termination_by sourceX.length - j
decreasing_by omega

theorem interpLoop_spec (sourceX sourceY targetX : List ℚ)
    (hsn : 2 ≤ sourceX.length) (hsy : sourceY.length = sourceX.length)
    (hsort : List.Sorted (· ≤ ·) sourceX) (htsort : List.Sorted (· ≤ ·) targetX)
    (i j : ℕ) (acc : List ℚ) (hj1 : 1 ≤ j) (hjn : j < sourceX.length)
    (hinv : ∀ k, i ≤ k → k < targetX.length → sourceX.getD (j - 1) 0 ≤ targetX.getD k 0) :
    ∃ tys, interpLoop sourceX sourceY (sourceX.length : ℤ) targetX (targetX.length : ℤ)
        (i : ℤ) (j : ℤ) acc = some (acc ++ tys) ∧
      tys.length = ((targetX.drop i).takeWhile
        (fun t => decide (t ≤ sourceX.getD (sourceX.length - 1) 0))).length ∧
      ∀ p, p < tys.length → ∃ jp : ℕ, 1 ≤ jp ∧ jp < sourceX.length ∧
        sourceX.getD (jp - 1) 0 ≤ targetX.getD (i + p) 0 ∧
        targetX.getD (i + p) 0 ≤ sourceX.getD jp 0 ∧
        tys.getD p 0 = interpFormula sourceX sourceY jp (targetX.getD (i + p) 0) := by
  rw [interpLoop]
  by_cases hi : i < targetX.length
  · rw [dif_pos (by exact_mod_cast hi)]
    have hx : getI targetX (i : ℤ) = some (targetX.getD i 0) := getI_nat targetX i hi
    have hlast : getI sourceX ((sourceX.length : ℤ) - 1)
        = some (sourceX.getD (sourceX.length - 1) 0) :=
      getI_nat' sourceX (sourceX.length - 1) (by omega) _ (by push_cast [Nat.cast_sub] <;> omega)
    rw [hx]
    simp only [Option.bind_eq_bind, Option.some_bind]
    rw [hlast]
    simp only [Option.bind_eq_bind, Option.some_bind]
    by_cases hxt : sourceX.getD (sourceX.length - 1) 0 < targetX.getD i 0
    · rw [if_pos hxt]
      refine ⟨[], by simp, ?_, by simp⟩
      rw [List.drop_eq_getElem_cons hi, List.takeWhile_cons]
      rw [show targetX[i] = targetX.getD i 0 from (List.getD_eq_getElem targetX 0 hi).symm]
      rw [decide_eq_false (not_le.mpr hxt)]
      simp
    · rw [if_neg hxt]
      have hx1 : getI sourceX (j : ℤ) = some (sourceX.getD j 0) := getI_nat sourceX j hjn
      have hy1 : getI sourceY (j : ℤ) = some (sourceY.getD j 0) :=
        getI_nat sourceY j (by omega)
      rw [hx1]
      simp only [Option.bind_eq_bind, Option.some_bind]
      rw [hy1]
      simp only [Option.bind_eq_bind, Option.some_bind]
      obtain ⟨jf, h1, h2, h3, h4, h5⟩ :=
        stepCursor_spec sourceX sourceY hsy (targetX.getD i 0) j hjn
      rw [h3]
      simp only [Option.bind_eq_bind, Option.some_bind]
      have hx0 : getI sourceX ((jf : ℤ) - 1) = some (sourceX.getD (jf - 1) 0) :=
        getI_nat' sourceX (jf - 1) (by omega) _ (by push_cast [Nat.cast_sub] <;> omega)
      have hy0 : getI sourceY ((jf : ℤ) - 1) = some (sourceY.getD (jf - 1) 0) :=
        getI_nat' sourceY (jf - 1) (by omega) _ (by push_cast [Nat.cast_sub] <;> omega)
      rw [hx0]
      simp only [Option.bind_eq_bind, Option.some_bind]
      rw [hy0]
      simp only [Option.bind_eq_bind, Option.some_bind]
      have hbrleft : sourceX.getD (jf - 1) 0 ≤ targetX.getD i 0 := by
        rcases Nat.lt_or_ge j jf with hlt | hge
        · exact le_of_lt (h5 hlt)
        · have : jf = j := by omega
          subst this
          exact hinv i le_rfl hi
      have hbrright : targetX.getD i 0 ≤ sourceX.getD jf 0 := by
        rcases h4 with h | h
        · exact h
        · have : jf = sourceX.length - 1 := by omega
          subst this
          exact not_lt.mp hxt
      have hinv' : ∀ k, i + 1 ≤ k → k < targetX.length →
          sourceX.getD (jf - 1) 0 ≤ targetX.getD k 0 := by
        intro k hk hk2
        calc sourceX.getD (jf - 1) 0 ≤ targetX.getD i 0 := hbrleft
          _ ≤ targetX.getD k 0 := sorted_getD_mono htsort (by omega) hk2
      obtain ⟨tys', e1, e2, e3⟩ := interpLoop_spec sourceX sourceY targetX hsn hsy hsort
        htsort (i + 1) jf (acc ++ [interpFormula sourceX sourceY jf (targetX.getD i 0)])
        (by omega) h2 hinv'
      refine ⟨interpFormula sourceX sourceY jf (targetX.getD i 0) :: tys', ?_, ?_, ?_⟩
      · rw [show (i : ℤ) + 1 = ((i + 1 : ℕ) : ℤ) by push_cast; ring]
        show interpLoop sourceX sourceY (sourceX.length : ℤ) targetX (targetX.length : ℤ)
          ((i + 1 : ℕ) : ℤ) (jf : ℤ)
          (acc ++ [interpFormula sourceX sourceY jf (targetX.getD i 0)]) = _
        rw [e1]
        simp
      · rw [List.drop_eq_getElem_cons hi, List.takeWhile_cons]
        rw [show targetX[i] = targetX.getD i 0 from (List.getD_eq_getElem targetX 0 hi).symm]
        rw [decide_eq_true (not_lt.mp hxt)]
        simp [e2]
      · intro p hp
        cases p with
        | zero =>
          refine ⟨jf, by omega, h2, by simpa using hbrleft, by simpa using hbrright, by simp⟩
        | succ q =>
          have hq : q < tys'.length := by
            simpa using Nat.lt_of_succ_lt_succ hp
          obtain ⟨jp, a1, a2, a3, a4, a5⟩ := e3 q hq
          have hidx : i + (q + 1) = i + 1 + q := by omega
          refine ⟨jp, a1, a2, ?_, ?_, ?_⟩
          · rw [hidx]; exact a3
          · rw [hidx]; exact a4
          · rw [hidx, List.getD_cons_succ]; exact a5
  · rw [dif_neg (by exact_mod_cast hi)]
    refine ⟨[], by simp, ?_, by simp⟩
    rw [List.drop_eq_nil_of_le (by omega)]
    simp
termination_by targetX.length - i
decreasing_by omega

/-- Claim C6 (amended, in-range part): for every source envelope with sn ≥ 2
(= |sx| = |sy|), non-decreasing sx, and non-decreasing targets tx lying at or
above sx[0], the interpolator succeeds; its output length equals the number of
leading targets with tx[i] ≤ sx[sn−1] (truncation at the first
tx[i] > sx[sn−1]: no extrapolation past the right end of the source), and each
produced ty[i] is the linear interpolation of the source at tx[i] on a
bracketing segment (j−1, j) — sx[j−1] ≤ tx[i] ≤ sx[j] — with the fallback
ty[i] = sy[j−1] when (sx[j] − sx[j−1])·(tx[i] − sx[j−1]) ≈ 0.
The hypothesis sx[0] ≤ tx[i] is necessary: a below-range target is linearly
extrapolated on the first source segment (established by the counterexample
theorem above), so the claim's "never extrapolates" only holds on the
right. -/
theorem C6_interpolator_spec (sourceX sourceY targetX : List ℚ)
    (hsn : 2 ≤ sourceX.length) (hsy : sourceY.length = sourceX.length)
    (hsort : List.Sorted (· ≤ ·) sourceX) (htsort : List.Sorted (· ≤ ·) targetX)
    (hlow : ∀ t ∈ targetX, sourceX.getD 0 0 ≤ t) :
    ∃ tys, interpolateValues sourceX sourceY (sourceX.length : ℤ) targetX
        (targetX.length : ℤ) = some tys ∧
      tys.length = (targetX.takeWhile
        (fun t => decide (t ≤ sourceX.getD (sourceX.length - 1) 0))).length ∧
      ∀ p, p < tys.length → ∃ jp : ℕ, 1 ≤ jp ∧ jp < sourceX.length ∧
        sourceX.getD (jp - 1) 0 ≤ targetX.getD p 0 ∧
        targetX.getD p 0 ≤ sourceX.getD jp 0 ∧
        tys.getD p 0 = interpFormula sourceX sourceY jp (targetX.getD p 0) := by
  have hinv : ∀ k, 0 ≤ k → k < targetX.length →
      sourceX.getD (1 - 1) 0 ≤ targetX.getD k 0 := by
    intro k _ hk
    simpa using hlow _ (getD_mem hk)
  obtain ⟨tys, e1, e2, e3⟩ := interpLoop_spec sourceX sourceY targetX hsn hsy hsort htsort
    0 1 [] le_rfl (by omega) hinv
  refine ⟨tys, ?_, by simpa using e2, fun p hp => by simpa using e3 p hp⟩
  rw [interpolateValues, if_neg (by omega : ¬ (sourceX.length : ℤ) = 0)]
  simpa using e1

theorem C6_interpolator_spec_witness :
    (2 ≤ ([0, 1] : List ℚ).length ∧ ([0, 2] : List ℚ).length = ([0, 1] : List ℚ).length ∧
     List.Sorted (· ≤ ·) ([0, 1] : List ℚ) ∧ List.Sorted (· ≤ ·) ([1/2] : List ℚ) ∧
     (∀ t ∈ ([1/2] : List ℚ), ([0, 1] : List ℚ).getD 0 0 ≤ t)) ∧
    (∃ tys, interpolateValues [0, 1] [0, 2] (([0, 1] : List ℚ).length : ℤ) [1/2]
        (([1/2] : List ℚ).length : ℤ) = some tys ∧
      tys.length = (([1/2] : List ℚ).takeWhile
        (fun t => decide (t ≤ ([0, 1] : List ℚ).getD (([0, 1] : List ℚ).length - 1) 0))).length ∧
      ∀ p, p < tys.length → ∃ jp : ℕ, 1 ≤ jp ∧ jp < ([0, 1] : List ℚ).length ∧
        ([0, 1] : List ℚ).getD (jp - 1) 0 ≤ ([1/2] : List ℚ).getD p 0 ∧
        ([1/2] : List ℚ).getD p 0 ≤ ([0, 1] : List ℚ).getD jp 0 ∧
        tys.getD p 0 = interpFormula [0, 1] [0, 2] jp (([1/2] : List ℚ).getD p 0)) := by
  have q1 : 2 ≤ ([0, 1] : List ℚ).length := by norm_num
  have q2 : ([0, 2] : List ℚ).length = ([0, 1] : List ℚ).length := by norm_num
  have q3 : List.Sorted (· ≤ ·) ([0, 1] : List ℚ) := by
    simp [List.sorted_cons]
  have q4 : List.Sorted (· ≤ ·) ([1/2] : List ℚ) := by simp
  have q5 : ∀ t ∈ ([1/2] : List ℚ), ([0, 1] : List ℚ).getD 0 0 ≤ t := by
    intro t ht
    simp at ht
    subst ht
    norm_num
  exact ⟨⟨q1, q2, q3, q4, q5⟩, C6_interpolator_spec [0, 1] [0, 2] [1/2] q1 q2 q3 q4 q5⟩

/-- Pointwise error value of the validator at index `i` (tube.c lines 145-157):
the violation magnitude when the test sample lies strictly outside the tube,
0 otherwise; used to state the specification of `compare`. -/
def violation (lower upper testY : List ℚ) (i : ℕ) : ℚ :=
  let ty := testY.getD i 0
  let lo := lower.getD i 0
  let up := upper.getD i 0
  if ty < lo then lo - ty else if up < ty then ty - up else 0

/-- Whether index `i` is a violation (the strict out-of-tube test of
tube.c line 146); used to state the specification of `compare`. -/
def isViol (lower upper testY : List ℚ) (i : ℕ) : Bool :=
  decide (testY.getD i 0 < lower.getD i 0 ∨ upper.getD i 0 < testY.getD i 0)

theorem compareLoop_spec (lower upper testY testX : List ℚ) (m : ℕ)
    (h1 : m ≤ lower.length) (h2 : m ≤ upper.length) (h3 : m ≤ testY.length)
    (h4 : m ≤ testX.length) (i : ℕ) (him : i ≤ m) (oX oY : List ℚ) (oN : ℤ)
    (dX dY : List ℚ) :
      compareLoop lower upper testY testX (m : ℤ) (i : ℤ) oX oY oN dX dY = some
        ⟨⟨oX ++ ((List.range' i (m - i)).filter (isViol lower upper testY)).map
              (fun k => testX.getD k 0),
          oY ++ ((List.range' i (m - i)).filter (isViol lower upper testY)).map
              (violation lower upper testY),
          oN + (((List.range' i (m - i)).filter (isViol lower upper testY)).length : ℤ)⟩,
         ⟨dX ++ (List.range' i (m - i)).map (fun k => testX.getD k 0),
          dY ++ (List.range' i (m - i)).map (violation lower upper testY),
          (m : ℤ)⟩⟩ := by
  rw [compareLoop]
  by_cases hi : i < m
  · rw [dif_pos (by exact_mod_cast hi)]
    rw [getI_nat testY i (by omega)]
    simp only [Option.bind_eq_bind, Option.some_bind]
    rw [getI_nat lower i (by omega)]
    simp only [Option.bind_eq_bind, Option.some_bind]
    rw [getI_nat upper i (by omega)]
    simp only [Option.bind_eq_bind, Option.some_bind]
    rw [getI_nat testX i (by omega)]
    simp only [Option.bind_eq_bind, Option.some_bind]
    have hrange : List.range' i (m - i) = i :: List.range' (i + 1) (m - (i + 1)) := by
      rw [show m - i = (m - (i + 1)) + 1 by omega]
      rw [List.range'_succ]
    have hcast : (i : ℤ) + 1 = ((i + 1 : ℕ) : ℤ) := by push_cast; ring
    by_cases hv : testY.getD i 0 < lower.getD i 0 ∨ upper.getD i 0 < testY.getD i 0
    · rw [if_pos hv]
      have hIH := compareLoop_spec lower upper testY testX m h1 h2 h3 h4 (i + 1)
        (by omega) (oX ++ [testX.getD i 0]) (oY ++ [violation lower upper testY i])
        (oN + 1) (dX ++ [testX.getD i 0]) (dY ++ [violation lower upper testY i])
      have hvv : (if testY.getD i 0 < lower.getD i 0
          then lower.getD i 0 - testY.getD i 0
          else testY.getD i 0 - upper.getD i 0) = violation lower upper testY i := by
        unfold violation
        rcases hv with h | h
        · rw [if_pos h, if_pos h]
        · by_cases h' : testY.getD i 0 < lower.getD i 0
          · rw [if_pos h', if_pos h']
          · rw [if_neg h', if_neg h', if_pos h]
      rw [hvv, hcast, hIH]
      have hfil : (List.range' i (m - i)).filter (isViol lower upper testY)
          = i :: (List.range' (i + 1) (m - (i + 1))).filter (isViol lower upper testY) := by
        rw [hrange, List.filter_cons]
        rw [show isViol lower upper testY i = true from decide_eq_true hv]
        simp
      rw [hfil, hrange]
      simp [List.append_assoc]
      push_cast
      ring
    · rw [if_neg hv]
      have hIH := compareLoop_spec lower upper testY testX m h1 h2 h3 h4 (i + 1)
        (by omega) oX oY oN (dX ++ [testX.getD i 0]) (dY ++ [(0 : ℚ)])
      have hvz : violation lower upper testY i = 0 := by
        unfold violation
        push_neg at hv
        rw [if_neg (not_lt.mpr hv.1), if_neg (not_lt.mpr hv.2)]
      rw [hcast, hIH]
      have hfil : (List.range' i (m - i)).filter (isViol lower upper testY)
          = (List.range' (i + 1) (m - (i + 1))).filter (isViol lower upper testY) := by
        rw [hrange, List.filter_cons]
        rw [show isViol lower upper testY i = false from decide_eq_false hv]
        simp
      rw [hfil, hrange]
      simp [List.append_assoc, hvz]
  · rw [dif_neg (by omega : ¬ (i : ℤ) < (m : ℤ))]
    have : i = m := by omega
    subst this
    simp
termination_by m - i
decreasing_by all_goals omega

theorem compare_spec (lower upper testY testX : List ℚ) (refLen testLen : ℤ) (m : ℕ)
    (hm : (m : ℤ) = min testLen refLen)
    (h1 : m ≤ lower.length) (h2 : m ≤ upper.length) (h3 : m ≤ testY.length)
    (h4 : m ≤ testX.length) :
    compare lower upper refLen testY testX testLen = some
      ⟨⟨((List.range m).filter (isViol lower upper testY)).map (fun k => testX.getD k 0),
        ((List.range m).filter (isViol lower upper testY)).map (violation lower upper testY),
        (((List.range m).filter (isViol lower upper testY)).length : ℤ)⟩,
       ⟨(List.range m).map (fun k => testX.getD k 0),
        (List.range m).map (violation lower upper testY),
        min testLen refLen⟩⟩ := by
  have h := compareLoop_spec lower upper testY testX m h1 h2 h3 h4 0 (Nat.zero_le m)
    [] [] 0 [] []
  show compareLoop lower upper testY testX (min testLen refLen) 0 [] [] 0 [] [] = _
  rw [← hm]
  simpa [List.range_eq_range'] using h

theorem violation_spec (lower upper testY : List ℚ) (i : ℕ) :
    0 ≤ violation lower upper testY i ∧
    (0 < violation lower upper testY i ↔
      (testY.getD i 0 < lower.getD i 0 ∨ upper.getD i 0 < testY.getD i 0)) ∧
    (testY.getD i 0 < lower.getD i 0 →
      violation lower upper testY i = lower.getD i 0 - testY.getD i 0) ∧
    (¬ testY.getD i 0 < lower.getD i 0 → upper.getD i 0 < testY.getD i 0 →
      violation lower upper testY i = testY.getD i 0 - upper.getD i 0) := by
  unfold violation
  by_cases hl : testY.getD i 0 < lower.getD i 0
  · rw [if_pos hl]
    exact ⟨by linarith, ⟨fun _ => Or.inl hl, fun _ => by linarith⟩, fun _ => rfl,
      fun h => absurd hl h⟩
  · rw [if_neg hl]
    by_cases hu : upper.getD i 0 < testY.getD i 0
    · rw [if_pos hu]
      exact ⟨by linarith, ⟨fun _ => Or.inr hu, fun _ => by linarith⟩,
        fun h => absurd h hl, fun _ _ => rfl⟩
    · rw [if_neg hu]
      refine ⟨le_rfl, ⟨fun h => absurd h (lt_irrefl 0), fun h => ?_⟩,
        fun h => absurd h hl, fun _ h => absurd h hu⟩
      rcases h with h | h
      · exact absurd h hl
      · exact absurd h hu

theorem getD_map_range (f : ℕ → ℚ) (m i : ℕ) (hi : i < m) :
    ((List.range m).map f).getD i 0 = f i := by
  rw [List.getD_eq_getElem _ _ (by simpa using hi)]
  simp

/-- Claim C7: for every in-range index of the comparison loop, the dense error
value is non-negative, strictly positive exactly when the test sample lies
strictly outside the interpolated tube, equal to the violation magnitude in
that case, and the sparse curve collects exactly the violating samples (in
order), with original.n equal to their count and diff.n = m. -/
theorem C7_validator_consistency (lower upper testY testX : List ℚ) (refLen testLen : ℤ)
    (m : ℕ) (hm : (m : ℤ) = min testLen refLen)
    (h1 : m ≤ lower.length) (h2 : m ≤ upper.length) (h3 : m ≤ testY.length)
    (h4 : m ≤ testX.length) :
    ∃ err, compare lower upper refLen testY testX testLen = some err ∧
      err.diff.n = min testLen refLen ∧
      err.diff.x = (List.range m).map (fun k => testX.getD k 0) ∧
      err.diff.y = (List.range m).map (violation lower upper testY) ∧
      (∀ i, i < m →
        0 ≤ err.diff.y.getD i 0 ∧
        (0 < err.diff.y.getD i 0 ↔
          (testY.getD i 0 < lower.getD i 0 ∨ upper.getD i 0 < testY.getD i 0)) ∧
        (testY.getD i 0 < lower.getD i 0 →
          err.diff.y.getD i 0 = lower.getD i 0 - testY.getD i 0) ∧
        (¬ testY.getD i 0 < lower.getD i 0 → upper.getD i 0 < testY.getD i 0 →
          err.diff.y.getD i 0 = testY.getD i 0 - upper.getD i 0)) ∧
      err.original.x = ((List.range m).filter (isViol lower upper testY)).map
        (fun k => testX.getD k 0) ∧
      err.original.y = ((List.range m).filter (isViol lower upper testY)).map
        (violation lower upper testY) ∧
      err.original.n = (((List.range m).filter (isViol lower upper testY)).length : ℤ) := by
  refine ⟨_, compare_spec lower upper testY testX refLen testLen m hm h1 h2 h3 h4,
    rfl, rfl, rfl, ?_, rfl, rfl, rfl⟩
  intro i hi
  have hgetD : ((List.range m).map (violation lower upper testY)).getD i 0
      = violation lower upper testY i := getD_map_range _ m i hi
  show 0 ≤ ((List.range m).map (violation lower upper testY)).getD i 0 ∧ _
  rw [hgetD]
  exact violation_spec lower upper testY i

theorem C7_validator_consistency_witness :
    ((1 : ℤ) = min 1 1 ∧ 1 ≤ ([0] : List ℚ).length ∧ 1 ≤ ([1] : List ℚ).length ∧
     1 ≤ ([2] : List ℚ).length ∧ 1 ≤ ([0] : List ℚ).length) ∧
    (∃ err, compare [0] [1] 1 [2] [0] 1 = some err ∧
      err.diff.n = min 1 1 ∧
      err.diff.x = (List.range 1).map (fun k => ([0] : List ℚ).getD k 0) ∧
      err.diff.y = (List.range 1).map (violation [0] [1] [2]) ∧
      (∀ i, i < 1 →
        0 ≤ err.diff.y.getD i 0 ∧
        (0 < err.diff.y.getD i 0 ↔
          (([2] : List ℚ).getD i 0 < ([0] : List ℚ).getD i 0 ∨
           ([1] : List ℚ).getD i 0 < ([2] : List ℚ).getD i 0)) ∧
        (([2] : List ℚ).getD i 0 < ([0] : List ℚ).getD i 0 →
          err.diff.y.getD i 0 = ([0] : List ℚ).getD i 0 - ([2] : List ℚ).getD i 0) ∧
        (¬ ([2] : List ℚ).getD i 0 < ([0] : List ℚ).getD i 0 →
          ([1] : List ℚ).getD i 0 < ([2] : List ℚ).getD i 0 →
          err.diff.y.getD i 0 = ([2] : List ℚ).getD i 0 - ([1] : List ℚ).getD i 0)) ∧
      err.original.x = ((List.range 1).filter (isViol [0] [1] [2])).map
        (fun k => ([0] : List ℚ).getD k 0) ∧
      err.original.y = ((List.range 1).filter (isViol [0] [1] [2])).map
        (violation [0] [1] [2]) ∧
      err.original.n = (((List.range 1).filter (isViol [0] [1] [2])).length : ℤ)) := by
  have q0 : (1 : ℤ) = min 1 1 := by norm_num
  have q1 : 1 ≤ ([0] : List ℚ).length := by norm_num
  have q2 : 1 ≤ ([1] : List ℚ).length := by norm_num
  have q3 : 1 ≤ ([2] : List ℚ).length := by norm_num
  exact ⟨⟨q0, q1, q2, q3, q1⟩,
    C7_validator_consistency [0] [1] [2] [0] 1 1 1 q0 q1 q2 q3 q1⟩

/-- Claim C10: the in/out-of-tube decision of the validator uses exact strict
comparisons, not the 1e-10 predicate: a test sample lying exactly on a bound
yields a zero dense error and no sparse entry, while any strictly positive
deviation, however small (in particular smaller than 1e-10), is reported with
its exact magnitude. -/
theorem C10_compare_strict (lower upper testY testX : List ℚ) (refLen testLen : ℤ)
    (m : ℕ) (hm : (m : ℤ) = min testLen refLen)
    (h1 : m ≤ lower.length) (h2 : m ≤ upper.length) (h3 : m ≤ testY.length)
    (h4 : m ≤ testX.length) (i : ℕ) (hi : i < m)
    (hlu : lower.getD i 0 ≤ upper.getD i 0) :
    ∃ err, compare lower upper refLen testY testX testLen = some err ∧
      err.original.n = (((List.range m).filter (isViol lower upper testY)).length : ℤ) ∧
      (testY.getD i 0 = lower.getD i 0 →
        err.diff.y.getD i 0 = 0 ∧ isViol lower upper testY i = false) ∧
      (testY.getD i 0 = upper.getD i 0 →
        err.diff.y.getD i 0 = 0 ∧ isViol lower upper testY i = false) ∧
      (∀ d : ℚ, 0 < d → testY.getD i 0 = lower.getD i 0 - d →
        err.diff.y.getD i 0 = d ∧ isViol lower upper testY i = true) ∧
      (∀ d : ℚ, 0 < d → testY.getD i 0 = upper.getD i 0 + d →
        err.diff.y.getD i 0 = d ∧ isViol lower upper testY i = true) := by
  refine ⟨_, compare_spec lower upper testY testX refLen testLen m hm h1 h2 h3 h4,
    rfl, ?_, ?_, ?_, ?_⟩
  all_goals
    rw [show ((List.range m).map (violation lower upper testY)).getD i 0
        = violation lower upper testY i from getD_map_range _ m i hi]
  · intro he
    constructor
    · unfold violation
      rw [if_neg (by rw [he]; exact lt_irrefl _)]
      rw [if_neg (by rw [he]; exact not_lt.mpr hlu)]
    · unfold isViol
      have hno : ¬ (testY.getD i 0 < lower.getD i 0 ∨ upper.getD i 0 < testY.getD i 0) := by
        push_neg
        rw [he]
        exact ⟨le_rfl, hlu⟩
      exact decide_eq_false hno
  · intro he
    constructor
    · unfold violation
      rw [if_neg (by rw [he]; exact not_lt.mpr hlu)]
      rw [if_neg (by rw [he]; exact lt_irrefl _)]
    · unfold isViol
      have hno : ¬ (testY.getD i 0 < lower.getD i 0 ∨ upper.getD i 0 < testY.getD i 0) := by
        push_neg
        rw [he]
        exact ⟨hlu, le_rfl⟩
      exact decide_eq_false hno
  · intro d hd he
    have hlt : testY.getD i 0 < lower.getD i 0 := by rw [he]; linarith
    constructor
    · unfold violation
      rw [if_pos hlt, he]
      ring
    · unfold isViol
      exact decide_eq_true (Or.inl hlt)
  · intro d hd he
    have hgt : upper.getD i 0 < testY.getD i 0 := by rw [he]; linarith
    have hnl : ¬ testY.getD i 0 < lower.getD i 0 := by rw [he]; push_neg; linarith
    constructor
    · unfold violation
      rw [if_neg hnl, if_pos hgt, he]
      ring
    · unfold isViol
      exact decide_eq_true (Or.inr hgt)

theorem C10_compare_strict_witness :
    ((1 : ℤ) = min 1 1 ∧ 1 ≤ ([0] : List ℚ).length ∧ 1 ≤ ([1] : List ℚ).length ∧
     (0 : ℕ) < 1 ∧ ([0] : List ℚ).getD 0 0 ≤ ([1] : List ℚ).getD 0 0 ∧
     (0 : ℚ) < 1 / 100000000000000000000 ∧ (1 : ℚ) / 100000000000000000000 < eps) ∧
    (∃ err, compare [0] [1] 1 [0] [0] 1 = some err ∧
      err.original.n = (((List.range 1).filter (isViol [0] [1] [0])).length : ℤ) ∧
      (([0] : List ℚ).getD 0 0 = ([0] : List ℚ).getD 0 0 →
        err.diff.y.getD 0 0 = 0 ∧ isViol [0] [1] [0] 0 = false) ∧
      (([0] : List ℚ).getD 0 0 = ([1] : List ℚ).getD 0 0 →
        err.diff.y.getD 0 0 = 0 ∧ isViol [0] [1] [0] 0 = false) ∧
      (∀ d : ℚ, 0 < d → ([0] : List ℚ).getD 0 0 = ([0] : List ℚ).getD 0 0 - d →
        err.diff.y.getD 0 0 = d ∧ isViol [0] [1] [0] 0 = true) ∧
      (∀ d : ℚ, 0 < d → ([0] : List ℚ).getD 0 0 = ([1] : List ℚ).getD 0 0 + d →
        err.diff.y.getD 0 0 = d ∧ isViol [0] [1] [0] 0 = true)) := by
  have q0 : (1 : ℤ) = min 1 1 := by norm_num
  have q1 : 1 ≤ ([0] : List ℚ).length := by norm_num
  have q2 : 1 ≤ ([1] : List ℚ).length := by norm_num
  have q3 : (0 : ℕ) < 1 := Nat.zero_lt_one
  have q4 : ([0] : List ℚ).getD 0 0 ≤ ([1] : List ℚ).getD 0 0 := by norm_num
  have q5 : (0 : ℚ) < 1 / 100000000000000000000 := by norm_num
  have q6 : (1 : ℚ) / 100000000000000000000 < eps := by unfold eps; norm_num
  exact ⟨⟨q0, q1, q2, q3, q4, q5, q6⟩,
    C10_compare_strict [0] [1] [0] [0] 1 1 1 q0 q1 q2 q1 q1 0 q3 q4⟩

/-! ## algorithmRectangle.c : removeLoop and its helpers -/

/-- `removeRange`: remove `count` elements starting at `staInd`
(exit(1) when the range exceeds the array, modelled as `none`;
a negative index or count is undefined behaviour, also `none`). -/
def removeRange (array : List ℚ) (size staInd count : ℤ) : Option (List ℚ) :=
  if 0 ≤ staInd ∧ 0 ≤ count ∧ staInd + count ≤ size then
    some (array.take staInd.toNat ++ array.drop (staInd + count).toNat)
  else none

/-- `removeAt`: remove the element at index `ind`
(exit(1) when `ind > size-1`, modelled as `none`). -/
def removeAt (array : List ℚ) (size ind : ℤ) : Option (List ℚ) :=
  if 0 ≤ ind ∧ ind ≤ size - 1 then
    some (array.take ind.toNat ++ array.drop (ind.toNat + 1))
  else none

/-- `insertAt`: insert `item` at index `index`
(exit(1) when `index > size`, modelled as `none`). -/
def insertAt (array : List ℚ) (size index : ℤ) (item : ℚ) : Option (List ℚ) :=
  if 0 ≤ index ∧ index ≤ size then
    some (array.take index.toNat ++ item :: array.drop index.toNat)
  else none

/-- Step A of `removeLoop` (lines 530-531): decrement `i` while `X[j+1] < X[i-1]`. -/
def findEntry (X : List ℚ) (j : ℤ) (i : ℤ) : Option ℤ :=
  match getI X (j + 1), h2 : getI X (i - 1) with
  | some xj1, some xim1 =>
    if xj1 < xim1 then findEntry X j (i - 1) else some i
  | _, _ => none
termination_by i.toNat
decreasing_by
  have := (getI_eq_some h2).1
  omega

/-- The `kMax` search of `removeLoop` (lines 533-535):
increment `kMax` while `X[kMax] < X[j]` and `kMax < re_size - 1`. -/
def findKMax (X : List ℚ) (j n : ℤ) (kMax : ℤ) : Option ℤ :=
  match getI X kMax, getI X j with
  | some xk, some xj =>
    if h : xk < xj ∧ kMax < n - 1 then findKMax X j n (kMax + 1) else some kMax
  | _, _ => none
termination_by (n - kMax).toNat
decreasing_by omega

/-- The short-circuit test `k+1 < re_size && equ(X[k], X[k+1]) && Y[k+1] < Y[k]`
of line 547, with the guarded reads of `X[k+1]`, `Y[k+1]` already performed
(`nxt = none` when `k+1 < re_size` fails). -/
def nextBelow (nxt : Option (ℚ × ℚ)) (xk yk : ℚ) : Prop :=
  match nxt with
  | some p => equ xk p.1 ∧ p.2 < yk
  | none => False

/-- The mirrored test of line 548 (`Y[k+1] > Y[k]`). -/
def nextAbove (nxt : Option (ℚ × ℚ)) (xk yk : ℚ) : Prop :=
  match nxt with
  | some p => equ xk p.1 ∧ p.2 > yk
  | none => False

instance : ∀ (nxt : Option (ℚ × ℚ)) (xk yk : ℚ), Decidable (nextBelow nxt xk yk)
  | none, _, _ => isFalse (fun h => h)
  | some _, _, _ => by unfold nextBelow; infer_instance

instance : ∀ (nxt : Option (ℚ × ℚ)) (xk yk : ℚ), Decidable (nextAbove nxt xk yk)
  | none, _, _ => isFalse (fun h => h)
  | some _, _, _ => by unfold nextAbove; infer_instance

/-- The inner advance of `i` inside the k-search (lines 546-550). -/
def advanceI (X Y : List ℚ) (n curInd j k : ℤ) (i : ℤ) : Option ℤ := do
  let xi ← getI X i
  let xk ← getI X k
  let yi ← getI Y i
  let yk ← getI Y k
  let nxt ← (if k + 1 < n then do
      let xk1 ← getI X (k + 1)
      let yk1 ← getI Y (k + 1)
      pure (some (xk1, yk1))
    else pure none)
  if h : (xi < xk
      ∨ (curInd = -1 ∧ equ xi xk ∧ yi < yk ∧ ¬ nextBelow nxt xk yk)
      ∨ (curInd = 1 ∧ equ xi xk ∧ yi > yk ∧ ¬ nextAbove nxt xk yk)) ∧ i < j
  then advanceI X Y n curInd j k (i + 1)
  else pure i
termination_by (j - i).toNat
decreasing_by omega

/-- The k-search of `removeLoop` (lines 542-558): advance `k` while the entry
ordinate `y` is on the wrong side of `Y[k]`, re-advancing `i` and
re-interpolating `y` on segment (i-1, i) at `X[k]`. -/
def findK (X Y : List ℚ) (n curInd j kMax : ℤ) (i iPrev k : ℤ) (y : ℚ) :
    Option (ℤ × ℤ × ℤ × ℚ) := do
  let yk ← getI Y k
  if h : ((curInd = -1 ∧ y < yk) ∨ (curInd = 1 ∧ yk < y)) ∧ k < kMax then do
    let i' ← advanceI X Y n curInd j (k + 1) i
    let xi ← getI X i'
    let xim1 ← getI X (i' - 1)
    let y' ← (if ¬ equ xi xim1 then do
        let yi ← getI Y i'
        let yim1 ← getI Y (i' - 1)
        let xk' ← getI X (k + 1)
        pure ((yi - yim1) / (xi - xim1) * (xk' - xim1) + yim1)
      else do
        let yi ← getI Y i'
        pure yi)
    findK X Y n curInd j kMax i' i (k + 1) y'
  else pure (i, iPrev, k, y)
termination_by (kMax - k).toNat
decreasing_by omega

/-- The second advance of `i` (lines 573-581), re-interpolating `y` on
segment (k-1, k) at the new `X[i]` when that segment is not vertical.
The reads of `X[k]`, `X[k-1]`, `Y[i]`, `X[i]` are grouped at the head. -/
def advanceI2Step (X Y : List ℚ) (curInd k i : ℤ) (y : ℚ) :
    Option ((ℤ × ℚ) ⊕ ℚ) :=
  match getI X i, getI Y i, getI X k, getI X (k - 1) with
  | some xi, some yi, some xk, some xkm1 =>
    if (¬ equ xk xkm1 ∧ ((curInd = -1 ∧ yi < y) ∨ (curInd = 1 ∧ y < yi)))
        ∨ (equ xk xkm1 ∧ xi < xk) then
      match (if ¬ equ xk xkm1 then do
          let yk ← getI Y k
          let ykm1 ← getI Y (k - 1)
          let xi1 ← getI X (i + 1)
          pure ((yk - ykm1) / (xk - xkm1) * (xi1 - xkm1) + ykm1)
        else pure y : Option ℚ) with
      | some y2 => some (.inr y2)
      | none => none
    else some (.inl (i, y))
  | _, _, _, _ => none

def advanceI2Go (X Y : List ℚ) (curInd k : ℤ) : ℕ → ℤ → ℚ → Option (ℤ × ℚ)
  | 0, _, _ => none
  | fuel + 1, i, y =>
    match advanceI2Step X Y curInd k i y with
    | some (.inl r) => some r
    | some (.inr y2) => advanceI2Go X Y curInd k fuel (i + 1) y2
    | none => none

def advanceI2 (X Y : List ℚ) (curInd k : ℤ) (i : ℤ) (y : ℚ) : Option (ℤ × ℚ) :=
  -- every advance of `i` requires the read of `X[i]` to succeed, so at most
  -- `X.length` iterations happen and the fuel never runs out
  advanceI2Go X Y curInd k (X.length + 1) i y

/-- Result of one iteration of the outer scan of `removeLoop`. -/
inductive LoopStep where
  | done : List ℚ → List ℚ → ℤ → LoopStep
  | next : List ℚ → List ℚ → ℤ → ℤ → LoopStep

/-- Step 2 of `removeLoop` (lines 583-618): the intersection point of
segments (i-1, i) and (k-1, k), or `none` inside `some` when no point is to be
added (both segments vertical, or equal slopes). -/
def intersectionPoint (X Y : List ℚ) (i3 k : ℤ) (xi3 xi3m1 xk xkm1 : ℚ) :
    Option (Option (ℚ × ℚ)) :=
  if equ xi3 xi3m1 ∧ equ xk xkm1 then pure none
  else if equ xi3 xi3m1 then do
    let yk ← getI Y k
    let ykm1 ← getI Y (k - 1)
    pure (some (xi3, ykm1 + ((xi3 - xkm1) * (yk - ykm1)) / (xk - xkm1)))
  else if equ xk xkm1 then do
    let yi ← getI Y i3
    let yim1 ← getI Y (i3 - 1)
    pure (some (xk, yim1 + ((xk - xi3m1) * (yi - yim1)) / (xi3 - xi3m1)))
  else do
    let yi ← getI Y i3
    let yim1 ← getI Y (i3 - 1)
    let yk ← getI Y k
    let ykm1 ← getI Y (k - 1)
    let a1 := (yi - yim1) / (xi3 - xi3m1)
    let a2 := (yk - ykm1) / (xk - xkm1)
    if ¬ equ a1 a2 then
      let ix := (a1 * xi3m1 - a2 * xkm1 - yim1 + ykm1) / (a1 - a2)
      let iy := if |a1| > |a2| then a2 * (ix - xkm1) + ykm1
                else a1 * (ix - xi3m1) + yim1
      pure (some (ix, iy))
    else pure none

/-- Step 4 of `removeLoop` (lines 635-664): insert the intersection point at
position `i3` unless it coincides with the point already there. -/
def insertStep (XX YY : List ℚ) (n1 i3 : ℤ) (ipt : Option (ℚ × ℚ)) :
    Option (List ℚ × List ℚ × ℤ) :=
  match ipt with
  | some p => do
    let xxi ← getI XX i3
    let yyi ← getI YY i3
    if ¬ equ xxi p.1 ∨ ¬ equ yyi p.2 then do
      let X2 ← insertAt XX n1 i3 p.1
      let Y2 ← insertAt YY n1 i3 p.2
      pure (X2, Y2, n1 + 1)
    else pure (XX, YY, n1)
  | none => pure (XX, YY, n1)

/-- Steps 5-6 of `removeLoop` (lines 666-710): set `j = i`, and remove the
seam point when it duplicates its predecessor (then `j = i - 1`). -/
def dedupStep (X2 Y2 : List ℚ) (n2 i3 : ℤ) : Option LoopStep := do
  let xdm1 ← getI X2 (i3 - 1)
  let xd ← getI X2 i3
  let ydm1 ← getI Y2 (i3 - 1)
  let yd ← getI Y2 i3
  if equ xdm1 xd ∧ equ ydm1 yd then do
    let X3 ← removeAt X2 n2 i3
    let Y3 ← removeAt Y2 n2 i3
    pure (.next X3 Y3 (n2 - 1) (i3 - 1))
  else
    pure (.next X2 Y2 n2 i3)

/-- Resolution of one backward segment `(j, j+1)` (lines 513-710). -/
def resolveLoop (curInd : ℤ) (X Y : List ℚ) (n j : ℤ) : Option LoopStep := do
  -- ===== 1. find i, k =====
  let i0 ← findEntry X j j
  let kMax ← findKMax X j n (j + 1)
  let y0 ← getI Y (i0 - 1)
  -- `iPrevious` is saved as `j` (line 526) before the entry-decrement loop,
  -- so the k-search starts with iPrev = j, not the decremented entry index
  let r ← findK X Y n curInd j kMax i0 j (j + 1) y0
  let iPrev := r.2.1
  let k := r.2.2.1
  let i2 := if iPrev > 1 then iPrev - 1 else iPrev
  let xk ← getI X k
  let xkm1 ← getI X (k - 1)
  let y2 ← (if ¬ equ xk xkm1 then do
      let yk ← getI Y k
      let ykm1 ← getI Y (k - 1)
      let xi ← getI X i2
      pure ((yk - ykm1) / (xk - xkm1) * (xi - xkm1) + ykm1)
    else pure r.2.2.2)
  let r2 ← advanceI2 X Y curInd k i2 y2
  let i3 := r2.1
  -- ===== 2. intersection =====
  let xi3 ← getI X i3
  let xi3m1 ← getI X (i3 - 1)
  let ipt ← intersectionPoint X Y i3 k xi3 xi3m1 xk xkm1
  -- ===== 3. delete points i until (including) k-1 =====
  let XX ← removeRange X n i3 (k - i3)
  let YY ← removeRange Y n i3 (k - i3)
  -- ===== 4. add intersection point =====
  let s ← insertStep XX YY (n - (k - i3)) i3 ipt
  -- ===== 5-6. set j = i, delete doubled points =====
  dedupStep s.1 s.2.1 s.2.2 i3

/-- One iteration of the outer `while (j < re_size - 2)` scan of `removeLoop`
(lines 511-713): either the scan is finished (`done`), or one step was taken
(`next X Y re_size j`, with the final `j = j + 1` of line 712 still to be
applied by the driver). -/
def removeLoopStep (curInd : ℤ) (X Y : List ℚ) (n j : ℤ) : Option LoopStep :=
  if j < n - 2 then do
    let xj ← getI X j
    let xj1 ← getI X (j + 1)
    if xj1 < xj then resolveLoop curInd X Y n j
    else pure (.next X Y n j)
  else pure (.done X Y n)

/-- The outer scan of `removeLoop`, driven by a fuel counter: each step of the
C `while` loop consumes one unit.  All results proved below are insensitive to
the (generous) amount of fuel supplied by `removeLoop`. -/
def removeLoopGo (curInd : ℤ) : ℕ → List ℚ → List ℚ → ℤ → ℤ → Option (List ℚ × List ℚ × ℤ)
  | 0, _, _, _, _ => none
  | fuel + 1, X, Y, n, j =>
    match removeLoopStep curInd X Y n j with
    | none => none
    | some (.done X' Y' n') => some (X', Y', n')
    | some (.next X' Y' n' j') => removeLoopGo curInd fuel X' Y' n' (j' + 1)

/-- Fuel supplied to the outer scan of `removeLoop`. -/
def removeLoopFuel (size : ℤ) : ℕ := (size.toNat + 3) * (size.toNat + 3)

/-- `removeLoop` from algorithmRectangle.c: remove points and add intersection
points in case of backward order; `j` starts at 1. -/
def removeLoop (X Y : List ℚ) (size curInd : ℤ) : Option Data :=
  (removeLoopGo curInd (removeLoopFuel size) X Y size 1).map
    (fun r => ⟨r.1, r.2.1, r.2.2⟩)

theorem removeLoopGo_mono (curInd : ℤ) :
    ∀ (f : ℕ) (X Y : List ℚ) (n j : ℤ) (r : List ℚ × List ℚ × ℤ),
      removeLoopGo curInd f X Y n j = some r →
      ∀ f', f ≤ f' → removeLoopGo curInd f' X Y n j = some r := by
  intro f
  induction f with
  | zero =>
    intro X Y n j r h
    simp [removeLoopGo] at h
  | succ f ih =>
    intro X Y n j r h f' hf
    obtain ⟨f'', rfl⟩ : ∃ f'', f' = f'' + 1 := ⟨f' - 1, by omega⟩
    rw [removeLoopGo] at h ⊢
    cases hs : removeLoopStep curInd X Y n j with
    | none => rw [hs] at h; exact absurd h (by simp)
    | some st =>
      rw [hs] at h
      cases st with
      | done X' Y' n' => exact h
      | next X' Y' n' j' => exact ih X' Y' n' (j' + 1) r h f'' (by omega)

theorem removeLoopStep_forward (curInd : ℤ) (X Y : List ℚ) (n j : ℤ)
    (hj : 0 ≤ j) (hlen : (X.length : ℤ) = n) (hcase : j < n - 2)
    (hmono : X.getD j.toNat 0 ≤ X.getD (j.toNat + 1) 0) :
    removeLoopStep curInd X Y n j = some (.next X Y n j) := by
  rw [removeLoopStep, if_pos hcase]
  have hr1 : getI X j = some (X.getD j.toNat 0) :=
    getI_nat' X j.toNat (by omega) j (by omega)
  have hr2 : getI X (j + 1) = some (X.getD (j.toNat + 1) 0) :=
    getI_nat' X (j.toNat + 1) (by omega) (j + 1) (by omega)
  rw [hr1]
  simp only [Option.bind_eq_bind, Option.some_bind]
  rw [hr2]
  simp only [Option.bind_eq_bind, Option.some_bind]
  rw [if_neg (not_lt.mpr hmono)]
  rfl

theorem removeLoopGo_noop (curInd : ℤ) (X Y : List ℚ) (n : ℤ)
    (hlen : (X.length : ℤ) = n)
    (hmono : ∀ p : ℕ, 1 ≤ p → (p : ℤ) < n - 2 → X.getD p 0 ≤ X.getD (p + 1) 0) :
    ∀ (fuel : ℕ) (j : ℤ), 1 ≤ j → (n - 2 - j).toNat < fuel →
      removeLoopGo curInd fuel X Y n j = some (X, Y, n) := by
  intro fuel
  induction fuel with
  | zero =>
    intro j hj hf
    omega
  | succ f ih =>
    intro j hj hf
    rw [removeLoopGo]
    by_cases hcase : j < n - 2
    · have hm : X.getD j.toNat 0 ≤ X.getD (j.toNat + 1) 0 :=
        hmono j.toNat (by omega) (by omega)
      rw [removeLoopStep_forward curInd X Y n j (by omega) hlen hcase hm]
      exact ih (j + 1) (by omega) (by omega)
    · rw [show removeLoopStep curInd X Y n j = some (.done X Y n) from by
        rw [removeLoopStep, if_neg hcase]
        rfl]

theorem removeLoop_noop (X Y : List ℚ) (n curInd : ℤ)
    (hlen : (X.length : ℤ) = n)
    (hmono : ∀ p : ℕ, 1 ≤ p → (p : ℤ) < n - 2 → X.getD p 0 ≤ X.getD (p + 1) 0) :
    removeLoop X Y n curInd = some ⟨X, Y, n⟩ := by
  unfold removeLoop
  rw [removeLoopGo_noop curInd X Y n hlen hmono (removeLoopFuel n) 1 le_rfl
    (by
      unfold removeLoopFuel
      have hle := Nat.le_mul_of_pos_left (n.toNat + 3) (show 0 < n.toNat + 3 by omega)
      omega)]
  rfl

/-- Claim C8: applying the loop remover to an already-cleaned envelope
(x non-decreasing, no adjacent duplicates under the 1e-10 predicate) returns
the same point sequence unchanged: same x values, y values, and length. -/
theorem C8_removeLoop_idempotent (X Y : List ℚ) (n curInd : ℤ)
    (hlx : (X.length : ℤ) = n) (hly : (Y.length : ℤ) = n)
    (hchain : X.Chain' (· ≤ ·))
    (hnodup : ∀ p : ℕ, p + 1 < X.length →
      ¬ (equ (X.getD p 0) (X.getD (p + 1) 0) ∧ equ (Y.getD p 0) (Y.getD (p + 1) 0))) :
    removeLoop X Y n curInd = some ⟨X, Y, n⟩ := by
  apply removeLoop_noop X Y n curInd hlx
  intro p hp1 hp2
  have hplen : p + 1 < X.length := by omega
  have hrel := List.chain'_iff_get.mp hchain p (by omega)
  rw [List.getD_eq_getElem X 0 (by omega), List.getD_eq_getElem X 0 hplen]
  simpa [List.get_eq_getElem] using hrel

theorem C8_removeLoop_idempotent_witness :
    ((([0, 1, 2] : List ℚ).length : ℤ) = 3 ∧ (([5, 6, 7] : List ℚ).length : ℤ) = 3 ∧
     ([0, 1, 2] : List ℚ).Chain' (· ≤ ·) ∧
     (∀ p : ℕ, p + 1 < ([0, 1, 2] : List ℚ).length →
       ¬ (equ (([0, 1, 2] : List ℚ).getD p 0) (([0, 1, 2] : List ℚ).getD (p + 1) 0) ∧
          equ (([5, 6, 7] : List ℚ).getD p 0) (([5, 6, 7] : List ℚ).getD (p + 1) 0)))) ∧
    removeLoop [0, 1, 2] [5, 6, 7] 3 (-1) = some ⟨[0, 1, 2], [5, 6, 7], 3⟩ := by
  have q1 : (([0, 1, 2] : List ℚ).length : ℤ) = 3 := by norm_num
  have q2 : (([5, 6, 7] : List ℚ).length : ℤ) = 3 := by norm_num
  have q3 : ([0, 1, 2] : List ℚ).Chain' (· ≤ ·) := by
    norm_num [List.chain'_cons, List.chain'_singleton]
  have q4 : ∀ p : ℕ, p + 1 < ([0, 1, 2] : List ℚ).length →
      ¬ (equ (([0, 1, 2] : List ℚ).getD p 0) (([0, 1, 2] : List ℚ).getD (p + 1) 0) ∧
         equ (([5, 6, 7] : List ℚ).getD p 0) (([5, 6, 7] : List ℚ).getD (p + 1) 0)) := by
    intro p hp
    simp only [List.length_cons, List.length_nil] at hp
    have hp2 : p < 2 := by omega
    interval_cases p <;> simp [equ_iff, eps, List.getD, List.get?] <;> norm_num
  exact ⟨⟨q1, q2, q3, q4⟩, C8_removeLoop_idempotent [0, 1, 2] [5, 6, 7] 3 (-1) q1 q2 q3 q4⟩

/-- Claim C1 (code_bug evidence): the loop remover's scan starts at j = 1 and
never examines the first segment.  On the raw lower envelope
X = [19/10, 9/10, 11/10, 1/10], Y = [-1/10, -11/10, -11/10, -1/10] — which is
exactly the raw lower envelope the builder emits for the (legal, x-decreasing)
reference [(2,0),(1,-1),(0,0)] with xLen = yLen = 1/10 — it returns the input
unchanged, although X[1] = 9/10 < X[0] = 19/10: the returned curve is not
non-decreasing in x. -/
theorem C1_removeLoop_not_cleaned :
    removeLoop [19/10, 9/10, 11/10, 1/10] [-1/10, -11/10, -11/10, -1/10] 4 (-1)
      = some ⟨[19/10, 9/10, 11/10, 1/10], [-1/10, -11/10, -11/10, -1/10], 4⟩ ∧
    ¬ ((19 : ℚ)/10 ≤ 9/10) := by
  constructor
  · apply removeLoop_noop
    · norm_num
    · intro p hp1 hp2
      have hp : p = 1 := by omega
      subst hp
      norm_num [List.getD, List.get?]
  · norm_num

/-! ## algorithmRectangle.c : the raw envelope builders -/

/-- `getNth` from algorithmRectangle.c: the value at `index` in the linked
list; a negative index or one past the end dereferences a null pointer,
modelled as `none`. -/
def getNth (l : List ℚ) (index : ℤ) : Option ℚ := getI l index

/-- `lastNodeDeletion`: delete the last node of the list.  With exactly one
node the node is freed but only the local head is nulled, so the caller's
list dangles: further use is undefined behaviour, modelled as `none`.
With no node a message is printed and nothing happens. -/
def lastNodeDeletion (l : List ℚ) : Option (List ℚ) :=
  match l with
  | [] => some []
  | [_] => none
  | _ => some l.dropLast

/-- The slope magnitude `1e15` used for vertical reference segments. -/
def bigSlope : ℚ := 1000000000000000

/-- The initial-duplicate skip of both builders (lines 227-229 and 375-377):
advance `b` while reference point `b+1` repeats point `b` (the four reads of
the condition are grouped). -/
def skipDupGo (xs ys : List ℚ) : ℕ → ℕ → Option ℕ
  | 0, _ => none
  | fuel + 1, b => do
    let xb ← xs.get? b
    let xb1 ← xs.get? (b + 1)
    let yb ← ys.get? b
    let yb1 ← ys.get? (b + 1)
    if equ xb xb1 ∧ equ yb yb1 then skipDupGo xs ys fuel (b + 1) else some b

def skipDup (xs ys : List ℚ) (b : ℕ) : Option ℕ :=
  -- each advance of `b` requires the read of `xs[b+1]` to succeed, so the
  -- loop takes fewer than `xs.length` steps and the fuel never runs out
  skipDupGo xs ys (xs.length + 1) b

/-- The horizontal-continuation collapse of `calculateLower` (lines 291-308):
pop the just-emitted point(s) when the about-to-arrive segment would continue
horizontally at the same tube y. -/
def collapseLower (yi1 yLen s0 s1 : ℚ) (lx ly : List ℚ) :
    Option (List ℚ × List ℚ) := do
  let len : ℤ := ly.length
  let lastY ← getNth ly (len - 1)
  if equ (yi1 - yLen) lastY then
    if equ (s0 * s1) (-1) then do
      let y3 ← getNth ly (len - 3)
      if equ y3 lastY then do
        let a1 ← lastNodeDeletion lx
        let b1 ← lastNodeDeletion ly
        let a2 ← lastNodeDeletion a1
        let b2 ← lastNodeDeletion b1
        pure (a2, b2)
      else pure (lx, ly)
    else do
      let y2 ← getNth ly (len - 2)
      if equ y2 lastY then do
        let a1 ← lastNodeDeletion lx
        let b1 ← lastNodeDeletion ly
        pure (a1, b1)
      else pure (lx, ly)
  else pure (lx, ly)

/-- The horizontal-continuation collapse of `calculateUpper` (lines 439-456),
testing `equ(reference.y[i+1] + yLen, lastY)`. -/
def collapseUpper (yi1 yLen s0 s1 : ℚ) (ux uy : List ℚ) :
    Option (List ℚ × List ℚ) := do
  let len : ℤ := uy.length
  let lastY ← getNth uy (len - 1)
  if equ (yi1 + yLen) lastY then
    if equ (s0 * s1) (-1) then do
      let y3 ← getNth uy (len - 3)
      if equ y3 lastY then do
        let a1 ← lastNodeDeletion ux
        let b1 ← lastNodeDeletion uy
        let a2 ← lastNodeDeletion a1
        let b2 ← lastNodeDeletion b1
        pure (a2, b2)
      else pure (ux, uy)
    else do
      let y2 ← getNth uy (len - 2)
      if equ y2 lastY then do
        let a1 ← lastNodeDeletion ux
        let b1 ← lastNodeDeletion uy
        pure (a1, b1)
      else pure (ux, uy)
  else pure (ux, uy)

/-- The corner-emission table of `calculateLower` (lines 267-289). -/
def lowerEmit (xLen yLen xi yi s0 s1 : ℚ) (lx ly : List ℚ) : List ℚ × List ℚ :=
  if ¬ equ s0 (-1) ∧ ¬ equ s1 (-1) then
    (lx ++ [xi + xLen], ly ++ [yi - yLen])
  else if ¬ equ s0 1 ∧ ¬ equ s1 1 then
    (lx ++ [xi - xLen], ly ++ [yi - yLen])
  else if equ s0 (-1) ∧ equ s1 1 then
    (lx ++ [xi - xLen, xi + xLen], ly ++ [yi - yLen, yi - yLen])
  else if equ s0 1 ∧ equ s1 (-1) then
    (lx ++ [xi + xLen, xi - xLen], ly ++ [yi - yLen, yi - yLen])
  else (lx, ly)

/-- The corner-emission table of `calculateUpper` (lines 415-437). -/
def upperEmit (xLen yLen xi yi s0 s1 : ℚ) (ux uy : List ℚ) : List ℚ × List ℚ :=
  if ¬ equ s0 (-1) ∧ ¬ equ s1 (-1) then
    (ux ++ [xi - xLen], uy ++ [yi + yLen])
  else if ¬ equ s0 1 ∧ ¬ equ s1 1 then
    (ux ++ [xi + xLen], uy ++ [yi + yLen])
  else if equ s0 1 ∧ equ s1 (-1) then
    (ux ++ [xi - xLen, xi + xLen], uy ++ [yi + yLen, yi + yLen])
  else if equ s0 (-1) ∧ equ s1 1 then
    (ux ++ [xi + xLen, xi - xLen], uy ++ [yi + yLen, yi + yLen])
  else (ux, uy)

/-- One iteration of the corner-emission loop body of `calculateLower`
(lines 253-311), at index `i` with slope state `(s0, m0)` and emitted
polyline `(lx, ly)`; returns the updated state. -/
def lowerStep (reference : Data) (xLen yLen : ℚ) (i : ℤ) (s0 m0 : ℚ)
    (lx ly : List ℚ) : Option (ℚ × ℚ × List ℚ × List ℚ) := do
  let xi ← getI reference.x i
  let xi1 ← getI reference.x (i + 1)
  let yi ← getI reference.y i
  let yi1 ← getI reference.y (i + 1)
  if equ xi xi1 ∧ equ yi yi1 then
    pure (s0, m0, lx, ly)
  else
    let s1 := sign (yi1 - yi)
    let m1 := if ¬ equ xi1 xi then (yi1 - yi) / (xi1 - xi)
              else if s1 > 0 then bigSlope else -bigSlope
    if ¬ equ m0 m1 then do
      let e := lowerEmit xLen yLen xi yi s0 s1 lx ly
      let p ← collapseLower yi1 yLen s0 s1 e.1 e.2
      pure (s1, m1, p.1, p.2)
    else pure (s1, m1, lx, ly)

/-- The corner-emission loop of `calculateLower` (lines 252-312): iterate
`lowerStep` for `i = b+1 … reference.n - 2` and return the final `s0` with
the emitted polyline. -/
def lowerIter (reference : Data) (xLen yLen : ℚ) (i : ℤ) (s0 m0 : ℚ)
    (lx ly : List ℚ) : Option (ℚ × List ℚ × List ℚ) :=
  if h : i < reference.n - 1 then
    match lowerStep reference xLen yLen i s0 m0 lx ly with
    | some s => lowerIter reference xLen yLen (i + 1) s.1 s.2.1 s.2.2.1 s.2.2.2
    | none => none
  else some (s0, lx, ly)
termination_by (reference.n - 1 - i).toNat
decreasing_by all_goals omega

/-- One iteration of the corner-emission loop body of `calculateUpper`
(lines 401-459). -/
def upperStep (reference : Data) (xLen yLen : ℚ) (i : ℤ) (s0 m0 : ℚ)
    (ux uy : List ℚ) : Option (ℚ × ℚ × List ℚ × List ℚ) := do
  let xi ← getI reference.x i
  let xi1 ← getI reference.x (i + 1)
  let yi ← getI reference.y i
  let yi1 ← getI reference.y (i + 1)
  if equ xi xi1 ∧ equ yi yi1 then
    pure (s0, m0, ux, uy)
  else
    let s1 := sign (yi1 - yi)
    let m1 := if ¬ equ xi1 xi then (yi1 - yi) / (xi1 - xi)
              else if s1 > 0 then bigSlope else -bigSlope
    if ¬ equ m0 m1 then do
      let e := upperEmit xLen yLen xi yi s0 s1 ux uy
      let p ← collapseUpper yi1 yLen s0 s1 e.1 e.2
      pure (s1, m1, p.1, p.2)
    else pure (s1, m1, ux, uy)

/-- The corner-emission loop of `calculateUpper` (lines 400-460). -/
def upperIter (reference : Data) (xLen yLen : ℚ) (i : ℤ) (s0 m0 : ℚ)
    (ux uy : List ℚ) : Option (ℚ × List ℚ × List ℚ) :=
  if h : i < reference.n - 1 then
    match upperStep reference xLen yLen i s0 m0 ux uy with
    | some s => upperIter reference xLen yLen (i + 1) s.1 s.2.1 s.2.2.1 s.2.2.2
    | none => none
  else some (s0, ux, uy)
termination_by (reference.n - 1 - i).toNat
decreasing_by all_goals omega

/-- `calculateLower` from algorithmRectangle.c: the data set of the lower
tube curve (start emission, iteration, end emission, then `removeLoop`
with `curInd = -1`). -/
def calculateLower (reference : Data) (ts : List ℚ) : Option Data := do
  let xLen ← ts.get? 0
  let yLen ← ts.get? 1
  let b ← skipDup reference.x reference.y 0
  let xb ← reference.x.get? b
  let xb1 ← reference.x.get? (b + 1)
  let yb ← reference.y.get? b
  let yb1 ← reference.y.get? (b + 1)
  let s0 := sign (yb1 - yb)
  let m0 := if ¬ equ xb1 xb then (yb1 - yb) / (xb1 - xb)
            else if s0 > 0 then bigSlope else -bigSlope
  let lx0 := if equ s0 1 then [xb - xLen, xb + xLen] else [xb - xLen]
  let ly0 := if equ s0 1 then [yb - yLen, yb - yLen] else [yb - yLen]
  let r ← lowerIter reference xLen yLen ((b : ℤ) + 1) s0 m0 lx0 ly0
  let xl ← getI reference.x (reference.n - 1)
  let yl ← getI reference.y (reference.n - 1)
  let lx2 := if equ r.1 (-1) then r.2.1 ++ [xl - xLen] else r.2.1
  let ly2 := if equ r.1 (-1) then r.2.2 ++ [yl - yLen] else r.2.2
  removeLoop (lx2 ++ [xl + xLen]) (ly2 ++ [yl - yLen]) ((ly2 ++ [yl - yLen]).length : ℤ) (-1)

/-- `calculateUpper` from algorithmRectangle.c: the data set of the upper
tube curve (start emission, iteration, end emission, then `removeLoop`
with `curInd = 1`). -/
def calculateUpper (reference : Data) (ts : List ℚ) : Option Data := do
  let xLen ← ts.get? 0
  let yLen ← ts.get? 1
  let b ← skipDup reference.x reference.y 0
  let xb ← reference.x.get? b
  let xb1 ← reference.x.get? (b + 1)
  let yb ← reference.y.get? b
  let yb1 ← reference.y.get? (b + 1)
  let s0 := sign (yb1 - yb)
  let m0 := if ¬ equ xb1 xb then (yb1 - yb) / (xb1 - xb)
            else if s0 > 0 then bigSlope else -bigSlope
  let ux0 := if equ s0 (-1) then [xb - xLen, xb + xLen] else [xb - xLen]
  let uy0 := if equ s0 (-1) then [yb + yLen, yb + yLen] else [yb + yLen]
  let r ← upperIter reference xLen yLen ((b : ℤ) + 1) s0 m0 ux0 uy0
  let xl ← getI reference.x (reference.n - 1)
  let yl ← getI reference.y (reference.n - 1)
  let ux2 := if equ r.1 1 then r.2.1 ++ [xl - xLen] else r.2.1
  let uy2 := if equ r.1 1 then r.2.2 ++ [yl + yLen] else r.2.2
  removeLoop (ux2 ++ [xl + xLen]) (uy2 ++ [yl + yLen]) ((uy2 ++ [yl + yLen]).length : ℤ) 1

/-! ## Side symmetry: mirroring lemmas -/

/-- Vertical mirroring of an ordinate array (negate every y); used to state the
side-symmetry property of the two builders. -/
def negL (l : List ℚ) : List ℚ := l.map (fun y => -y)

theorem negL_length (l : List ℚ) : (negL l).length = l.length := List.length_map l _

theorem getI_negL (l : List ℚ) (i : ℤ) :
    getI (negL l) i = (getI l i).map (fun y => -y) := by
  unfold getI negL
  split
  · exact List.get?_map _ l _
  · rfl

theorem get?_negL (l : List ℚ) (n : ℕ) :
    (negL l).get? n = (l.get? n).map (fun y => -y) := List.get?_map _ l n

theorem negL_append (l1 l2 : List ℚ) : negL (l1 ++ l2) = negL l1 ++ negL l2 :=
  List.map_append _ l1 l2

theorem equ_comm (a b : ℚ) : equ a b ↔ equ b a := by
  unfold equ
  rw [abs_sub_comm]

theorem sign_neg_mirror (a : ℚ) : sign (-a) = -sign a := by
  unfold sign
  rcases lt_trichotomy a 0 with h | h | h
  · rw [if_pos (by linarith : -a > 0), if_neg (by linarith : ¬ a > 0), if_pos h]
    norm_num
  · subst h
    norm_num
  · rw [if_neg (by linarith : ¬ -a > 0), if_pos (by linarith : -a < 0), if_pos h]

theorem sign_zero_iff (a : ℚ) : sign a = 0 ↔ a = 0 := by
  unfold sign
  rcases lt_trichotomy a 0 with h | h | h
  · rw [if_neg (by linarith : ¬ a > 0), if_pos h]
    constructor
    · intro h1; norm_num at h1
    · intro h1; linarith
  · subst h; norm_num
  · rw [if_pos h]
    constructor
    · intro h1; norm_num at h1
    · intro h1; linarith

theorem sign_vals (a : ℚ) : sign a = 0 ∨ sign a = 1 ∨ sign a = -1 := by
  unfold sign
  split
  · exact Or.inr (Or.inl rfl)
  · split
    · exact Or.inr (Or.inr rfl)
    · exact Or.inl rfl

theorem nextAbove_mirror (nxt : Option (ℚ × ℚ)) (xk yk : ℚ) :
    nextAbove (nxt.map (fun p => (p.1, -p.2))) xk (-yk) ↔ nextBelow nxt xk yk := by
  cases nxt with
  | none => exact Iff.rfl
  | some p =>
    show equ xk p.1 ∧ -p.2 > -yk ↔ equ xk p.1 ∧ p.2 < yk
    constructor
    · rintro ⟨h1, h2⟩; exact ⟨h1, by linarith⟩
    · rintro ⟨h1, h2⟩; exact ⟨h1, by linarith⟩

theorem lastNodeDeletion_negL (l : List ℚ) :
    lastNodeDeletion (negL l) = (lastNodeDeletion l).map negL := by
  match l with
  | [] => rfl
  | [a] => rfl
  | a :: b :: t =>
    show some ((negL (a :: b :: t)).dropLast) = some (negL ((a :: b :: t).dropLast))
    rw [Option.some_inj]
    unfold negL
    exact (List.map_dropLast _ _).symm

theorem getNth_negL (l : List ℚ) (i : ℤ) :
    getNth (negL l) i = (getNth l i).map (fun y => -y) := getI_negL l i

theorem collapse_mirror (yi1 yLen s0 s1 : ℚ) (lx ly : List ℚ) :
    collapseUpper (-yi1) yLen (-s0) (-s1) lx (negL ly)
      = (collapseLower yi1 yLen s0 s1 lx ly).map (fun p => (p.1, negL p.2)) := by
  unfold collapseUpper collapseLower
  dsimp only
  rw [negL_length, getNth_negL]
  cases hlast : getNth ly ((ly.length : ℤ) - 1) with
  | none => rfl
  | some lastY =>
    simp only [Option.map_some', Option.bind_eq_bind, Option.some_bind,
      show -yi1 + yLen = -(yi1 - yLen) from by ring, equ_neg,
      show -s0 * -s1 = s0 * s1 from by ring]
    by_cases h1 : equ (yi1 - yLen) lastY
    · rw [if_pos h1, if_pos h1]
      by_cases h2 : equ (s0 * s1) (-1)
      · rw [if_pos h2, if_pos h2, getNth_negL]
        cases h3 : getNth ly ((ly.length : ℤ) - 3) with
        | none => rfl
        | some y3 =>
          simp only [Option.map_some', Option.bind_eq_bind, Option.some_bind, equ_neg]
          by_cases h4 : equ y3 lastY
          · rw [if_pos h4, if_pos h4]
            cases ha1 : lastNodeDeletion lx with
            | none => rfl
            | some a1 =>
              rw [lastNodeDeletion_negL]
              cases hb1 : lastNodeDeletion ly with
              | none => rfl
              | some b1 =>
                simp only [Option.map_some', Option.bind_eq_bind, Option.some_bind]
                cases ha2 : lastNodeDeletion a1 with
                | none => rfl
                | some a2 =>
                  rw [lastNodeDeletion_negL]
                  cases hb2 : lastNodeDeletion b1 with
                  | none => rfl
                  | some b2 =>
                    simp only [Option.map_some', Option.bind_eq_bind, Option.some_bind]
                    rfl
          · rw [if_neg h4, if_neg h4]
            rfl
      · rw [if_neg h2, if_neg h2, getNth_negL]
        cases h3 : getNth ly ((ly.length : ℤ) - 2) with
        | none => rfl
        | some y2 =>
          simp only [Option.map_some', Option.bind_eq_bind, Option.some_bind, equ_neg]
          by_cases h4 : equ y2 lastY
          · rw [if_pos h4, if_pos h4]
            cases ha1 : lastNodeDeletion lx with
            | none => rfl
            | some a1 =>
              rw [lastNodeDeletion_negL]
              cases hb1 : lastNodeDeletion ly with
              | none => rfl
              | some b1 =>
                simp only [Option.map_some', Option.bind_eq_bind, Option.some_bind]
                rfl
          · rw [if_neg h4, if_neg h4]
            rfl
    · rw [if_neg h1, if_neg h1]
      rfl

theorem equ_neg_one (a : ℚ) : equ (-a) 1 ↔ equ a (-1) := by
  unfold equ
  rw [show -a - 1 = -(a - -1) from by ring, abs_neg]

theorem equ_negone (a : ℚ) : equ (-a) (-1) ↔ equ a 1 := by
  unfold equ
  rw [show -a - -1 = -(a - 1) from by ring, abs_neg]

theorem eps_pos : (0 : ℚ) < eps := by unfold eps; norm_num

theorem slope_inv (xi xi1 yi yi1 : ℚ) (h : ¬ (equ xi xi1 ∧ equ yi yi1)) :
    sign (yi1 - yi) = 0 →
      (if ¬ equ xi1 xi then (yi1 - yi) / (xi1 - xi)
       else if sign (yi1 - yi) > 0 then bigSlope else -bigSlope) = 0 := by
  intro hs
  have hy : yi1 = yi := by
    have := (sign_zero_iff (yi1 - yi)).mp hs
    linarith
  by_cases hx : equ xi1 xi
  · exfalso
    exact h ⟨(equ_comm xi1 xi).mp hx, by rw [hy]; exact equ_self yi⟩
  · rw [if_pos hx]
    rw [hy]
    simp

theorem slope_mirror (xi xi1 yi yi1 : ℚ) (h : ¬ (equ xi xi1 ∧ equ yi yi1)) :
    (if ¬ equ xi1 xi then (-yi1 - -yi) / (xi1 - xi)
     else if sign (-yi1 - -yi) > 0 then bigSlope else -bigSlope)
    = -(if ¬ equ xi1 xi then (yi1 - yi) / (xi1 - xi)
        else if sign (yi1 - yi) > 0 then bigSlope else -bigSlope) := by
  by_cases hx : equ xi1 xi
  · rw [if_neg (not_not_intro hx), if_neg (not_not_intro hx)]
    have hy : ¬ equ yi yi1 := fun hy => h ⟨(equ_comm xi1 xi).mp hx, hy⟩
    have hne : yi1 - yi ≠ 0 := by
      intro he
      exact hy (by unfold equ; rw [show yi - yi1 = -(yi1 - yi) from by ring, he]; simpa using eps_pos)
    rw [show -yi1 - -yi = -(yi1 - yi) from by ring, sign_neg_mirror]
    rcases sign_vals (yi1 - yi) with hs | hs | hs
    · exact absurd ((sign_zero_iff _).mp hs) hne
    · rw [hs]
      norm_num
    · rw [hs]
      norm_num
  · rw [if_pos hx, if_pos hx]
    rw [show -yi1 - -yi = -(yi1 - yi) from by ring, neg_div]

theorem negL_singleton (a : ℚ) : negL [a] = [-a] := rfl

theorem negL_pair (a b : ℚ) : negL [a, b] = [-a, -b] := rfl

theorem equ_of_eq {a b : ℚ} (h : a = b) : equ a b := by
  unfold equ
  rw [h, sub_self, abs_zero]
  exact eps_pos

theorem emit_mirror (xLen yLen xi yi s0 s1 : ℚ) (lx ly : List ℚ)
    (hs0 : s0 = 0 ∨ s0 = 1 ∨ s0 = -1) (hs1 : s1 = 0 ∨ s1 = 1 ∨ s1 = -1)
    (hover : ¬ (s0 = 0 ∧ s1 = 0)) :
    upperEmit xLen yLen xi (-yi) (-s0) (-s1) lx (negL ly)
      = ((lowerEmit xLen yLen xi yi s0 s1 lx ly).1,
         negL (lowerEmit xLen yLen xi yi s0 s1 lx ly).2) := by
  unfold upperEmit lowerEmit
  simp only [equ_negone, equ_neg_one,
    show -yi + yLen = -(yi - yLen) from by ring]
  by_cases hC1 : ¬ equ s0 (-1) ∧ ¬ equ s1 (-1)
  · by_cases hC2 : ¬ equ s0 1 ∧ ¬ equ s1 1
    · exfalso
      apply hover
      constructor
      · rcases hs0 with h | h | h
        · exact h
        · exact absurd (equ_of_eq h) hC2.1
        · exact absurd (equ_of_eq h) hC1.1
      · rcases hs1 with h | h | h
        · exact h
        · exact absurd (equ_of_eq h) hC2.2
        · exact absurd (equ_of_eq h) hC1.2
    · rw [if_neg hC2, if_pos hC1, if_pos hC1]
      simp only [negL_append, negL_singleton]
  · rw [if_neg hC1, if_neg hC1]
    by_cases hC2 : ¬ equ s0 1 ∧ ¬ equ s1 1
    · rw [if_pos hC2, if_pos hC2]
      simp only [negL_append, negL_singleton]
    · rw [if_neg hC2, if_neg hC2]
      by_cases hC3 : equ s0 (-1) ∧ equ s1 1
      · rw [if_pos hC3, if_pos hC3]
        simp only [negL_append, negL_pair]
      · rw [if_neg hC3, if_neg hC3]
        by_cases hC4 : equ s0 1 ∧ equ s1 (-1)
        · rw [if_pos hC4, if_pos hC4]
          simp only [negL_append, negL_pair]
        · rw [if_neg hC4, if_neg hC4]

theorem step_mirror (reference : Data) (xLen yLen : ℚ) (i : ℤ) (s0 m0 : ℚ)
    (lx ly : List ℚ) (hval : s0 = 0 ∨ s0 = 1 ∨ s0 = -1) (hinv : s0 = 0 → m0 = 0) :
    upperStep ⟨reference.x, negL reference.y, reference.n⟩ xLen yLen i (-s0) (-m0)
        lx (negL ly)
      = (lowerStep reference xLen yLen i s0 m0 lx ly).map
          (fun s => (-s.1, -s.2.1, s.2.2.1, negL s.2.2.2)) := by
  unfold upperStep lowerStep
  dsimp only
  cases hx : getI reference.x i with
  | none => rfl
  | some xi =>
    simp only [hx, Option.bind_eq_bind, Option.some_bind]
    cases hx1 : getI reference.x (i + 1) with
    | none => rfl
    | some xi1 =>
      simp only [hx1, Option.bind_eq_bind, Option.some_bind, getI_negL]
      cases hy : getI reference.y i with
      | none => rfl
      | some yi =>
        simp only [Option.map_some', Option.bind_eq_bind, Option.some_bind]
        cases hy1 : getI reference.y (i + 1) with
        | none => rfl
        | some yi1 =>
          simp only [Option.map_some', Option.bind_eq_bind, Option.some_bind, equ_neg]
          by_cases hskip : equ xi xi1 ∧ equ yi yi1
          · rw [if_pos hskip, if_pos hskip]
            rfl
          · rw [if_neg hskip, if_neg hskip]
            rw [slope_mirror xi xi1 yi yi1 hskip]
            rw [show -yi1 - -yi = -(yi1 - yi) from by ring, sign_neg_mirror]
            simp only [equ_neg]
            by_cases hm : equ m0 (if ¬ equ xi1 xi then (yi1 - yi) / (xi1 - xi)
                else if sign (yi1 - yi) > 0 then bigSlope else -bigSlope)
            · rw [if_neg (not_not_intro hm), if_neg (not_not_intro hm)]
              rfl
            · rw [if_pos hm, if_pos hm]
              have hover : ¬ (s0 = 0 ∧ sign (yi1 - yi) = 0) := by
                rintro ⟨hz0, hz1⟩
                apply hm
                rw [hinv hz0, slope_inv xi xi1 yi yi1 hskip hz1]
                exact equ_self 0
              rw [emit_mirror xLen yLen xi yi s0 (sign (yi1 - yi)) lx ly hval
                (sign_vals (yi1 - yi)) hover]
              dsimp only
              rw [collapse_mirror]
              cases hc : collapseLower yi1 yLen s0 (sign (yi1 - yi)) _ _ with
              | none => rfl
              | some p =>
                simp only [Option.map_some', Option.bind_eq_bind, Option.some_bind]
                rfl

theorem lowerStep_post (reference : Data) (xLen yLen : ℚ) (i : ℤ) (s0 m0 : ℚ)
    (lx ly : List ℚ) (s' : ℚ × ℚ × List ℚ × List ℚ)
    (hval : s0 = 0 ∨ s0 = 1 ∨ s0 = -1) (hinv : s0 = 0 → m0 = 0)
    (h : lowerStep reference xLen yLen i s0 m0 lx ly = some s') :
    (s'.1 = 0 ∨ s'.1 = 1 ∨ s'.1 = -1) ∧ (s'.1 = 0 → s'.2.1 = 0) := by
  unfold lowerStep at h
  cases hx : getI reference.x i with
  | none => rw [hx] at h; exact absurd h (by simp)
  | some xi =>
    rw [hx] at h
    simp only [Option.bind_eq_bind, Option.some_bind] at h
    cases hx1 : getI reference.x (i + 1) with
    | none => rw [hx1] at h; exact absurd h (by simp)
    | some xi1 =>
      rw [hx1] at h
      simp only [Option.bind_eq_bind, Option.some_bind] at h
      cases hy : getI reference.y i with
      | none => rw [hy] at h; exact absurd h (by simp)
      | some yi =>
        rw [hy] at h
        simp only [Option.bind_eq_bind, Option.some_bind] at h
        cases hy1 : getI reference.y (i + 1) with
        | none => rw [hy1] at h; exact absurd h (by simp)
        | some yi1 =>
          rw [hy1] at h
          simp only [Option.bind_eq_bind, Option.some_bind] at h
          by_cases hskip : equ xi xi1 ∧ equ yi yi1
          · rw [if_pos hskip] at h
            simp only [Option.pure_def, Option.some_inj] at h
            subst h
            exact ⟨hval, hinv⟩
          · rw [if_neg hskip] at h
            by_cases hm : ¬ equ m0 (if ¬ equ xi1 xi then (yi1 - yi) / (xi1 - xi)
                else if sign (yi1 - yi) > 0 then bigSlope else -bigSlope)
            · rw [if_pos hm] at h
              simp only [Option.bind_eq_bind, Option.bind_eq_some, Option.pure_def,
                Option.some_inj] at h
              obtain ⟨p, hp, h⟩ := h
              subst h
              exact ⟨sign_vals _, slope_inv xi xi1 yi yi1 hskip⟩
            · rw [if_neg hm] at h
              simp only [Option.pure_def, Option.some_inj] at h
              subst h
              exact ⟨sign_vals _, slope_inv xi xi1 yi yi1 hskip⟩

theorem iter_mirror (reference : Data) (xLen yLen : ℚ) (i : ℤ) (s0 m0 : ℚ)
    (lx ly : List ℚ) (hval : s0 = 0 ∨ s0 = 1 ∨ s0 = -1) (hinv : s0 = 0 → m0 = 0) :
    upperIter ⟨reference.x, negL reference.y, reference.n⟩ xLen yLen i (-s0) (-m0)
        lx (negL ly)
      = (lowerIter reference xLen yLen i s0 m0 lx ly).map
          (fun r => (-r.1, r.2.1, negL r.2.2)) := by
  rw [upperIter, lowerIter]
  by_cases hi : i < reference.n - 1
  · rw [dif_pos hi, dif_pos (show i < (Data.mk reference.x (negL reference.y) reference.n).n - 1 from hi)]
    rw [step_mirror reference xLen yLen i s0 m0 lx ly hval hinv]
    cases hs : lowerStep reference xLen yLen i s0 m0 lx ly with
    | none => rfl
    | some s' =>
      simp only [Option.map_some']
      obtain ⟨hval', hinv'⟩ := lowerStep_post reference xLen yLen i s0 m0 lx ly s' hval hinv hs
      exact iter_mirror reference xLen yLen (i + 1) s'.1 s'.2.1 s'.2.2.1 s'.2.2.2 hval' hinv'
  · rw [dif_neg hi, dif_neg (show ¬ i < (Data.mk reference.x (negL reference.y) reference.n).n - 1 from hi)]
    rfl
termination_by (reference.n - 1 - i).toNat
decreasing_by all_goals omega

theorem skipDupGo_negL (xs ys : List ℚ) (fuel b : ℕ) :
    skipDupGo xs (negL ys) fuel b = skipDupGo xs ys fuel b := by
  induction fuel generalizing b with
  | zero => rfl
  | succ fuel ih =>
    rw [skipDupGo, skipDupGo]
    rw [get?_negL, get?_negL]
    cases h1 : xs.get? b with
    | none => rfl
    | some xb =>
      simp only [Option.bind_eq_bind, Option.some_bind]
      cases h2 : xs.get? (b + 1) with
      | none => rfl
      | some xb1 =>
        simp only [Option.bind_eq_bind, Option.some_bind]
        cases h3 : ys.get? b with
        | none => rfl
        | some yb =>
          simp only [Option.map_some', Option.bind_eq_bind, Option.some_bind]
          cases h4 : ys.get? (b + 1) with
          | none => rfl
          | some yb1 =>
            simp only [Option.map_some', Option.bind_eq_bind, Option.some_bind,
              equ_neg]
            by_cases hc : equ xb xb1 ∧ equ yb yb1
            · rw [if_pos hc, if_pos hc]
              exact ih (b + 1)
            · rw [if_neg hc, if_neg hc]

theorem skipDup_negL (xs ys : List ℚ) (b : ℕ) :
    skipDup xs (negL ys) b = skipDup xs ys b := by
  unfold skipDup
  exact skipDupGo_negL xs ys (xs.length + 1) b

theorem skipDupGo_post (xs ys : List ℚ) (fuel b b' : ℕ) (xb xb1 yb yb1 : ℚ)
    (h : skipDupGo xs ys fuel b = some b')
    (hxb : xs.get? b' = some xb) (hxb1 : xs.get? (b' + 1) = some xb1)
    (hyb : ys.get? b' = some yb) (hyb1 : ys.get? (b' + 1) = some yb1) :
    ¬ (equ xb xb1 ∧ equ yb yb1) := by
  induction fuel generalizing b with
  | zero => exact absurd h (by simp [skipDupGo])
  | succ fuel ih =>
    rw [skipDupGo] at h
    cases h1 : xs.get? b with
    | none => rw [h1] at h; exact absurd h (by simp)
    | some cxb =>
      rw [h1] at h
      simp only [Option.bind_eq_bind, Option.some_bind] at h
      cases h2 : xs.get? (b + 1) with
      | none => rw [h2] at h; exact absurd h (by simp)
      | some cxb1 =>
        rw [h2] at h
        simp only [Option.bind_eq_bind, Option.some_bind] at h
        cases h3 : ys.get? b with
        | none => rw [h3] at h; exact absurd h (by simp)
        | some cyb =>
          rw [h3] at h
          simp only [Option.bind_eq_bind, Option.some_bind] at h
          cases h4 : ys.get? (b + 1) with
          | none => rw [h4] at h; exact absurd h (by simp)
          | some cyb1 =>
            rw [h4] at h
            simp only [Option.bind_eq_bind, Option.some_bind] at h
            by_cases hc : equ cxb cxb1 ∧ equ cyb cyb1
            · rw [if_pos hc] at h
              exact ih (b + 1) h
            · rw [if_neg hc] at h
              rw [Option.some_inj] at h
              subst h
              rw [h1] at hxb
              rw [h2] at hxb1
              rw [h3] at hyb
              rw [h4] at hyb1
              rw [Option.some_inj] at hxb hxb1 hyb hyb1
              subst hxb
              subst hxb1
              subst hyb
              subst hyb1
              exact hc

theorem skipDup_post (xs ys : List ℚ) (b b' : ℕ) (xb xb1 yb yb1 : ℚ)
    (h : skipDup xs ys b = some b')
    (hxb : xs.get? b' = some xb) (hxb1 : xs.get? (b' + 1) = some xb1)
    (hyb : ys.get? b' = some yb) (hyb1 : ys.get? (b' + 1) = some yb1) :
    ¬ (equ xb xb1 ∧ equ yb yb1) :=
  skipDupGo_post xs ys (xs.length + 1) b b' xb xb1 yb yb1 h hxb hxb1 hyb hyb1

theorem negL_take (l : List ℚ) (n : ℕ) : (negL l).take n = negL (l.take n) :=
  (List.map_take _ _ _).symm

theorem negL_drop (l : List ℚ) (n : ℕ) : (negL l).drop n = negL (l.drop n) :=
  (List.map_drop _ _ _).symm

theorem negL_cons (a : ℚ) (l : List ℚ) : negL (a :: l) = -a :: negL l := rfl

theorem removeRange_negL (ys : List ℚ) (n i c : ℤ) :
    removeRange (negL ys) n i c = (removeRange ys n i c).map negL := by
  unfold removeRange
  split
  · rw [Option.map_some', Option.some_inj, negL_take, negL_drop, negL_append]
  · rfl

theorem removeAt_negL (ys : List ℚ) (n i : ℤ) :
    removeAt (negL ys) n i = (removeAt ys n i).map negL := by
  unfold removeAt
  split
  · rw [Option.map_some', Option.some_inj, negL_take, negL_drop, negL_append]
  · rfl

theorem insertAt_negL (ys : List ℚ) (n i : ℤ) (item : ℚ) :
    insertAt (negL ys) n i (-item) = (insertAt ys n i item).map negL := by
  unfold insertAt
  split
  · rw [Option.map_some', Option.some_inj, negL_take, negL_drop, negL_append,
      negL_cons]
  · rfl

theorem neg_gt_iff (a b : ℚ) : -a > -b ↔ a < b := by
  constructor <;> intro h <;> linarith

theorem neg_lt_iff (a b : ℚ) : -a < -b ↔ b < a := by
  constructor <;> intro h <;> linarith

theorem nextAbove_neg (xk1 yk1 xk yk : ℚ) :
    nextAbove (some (xk1, -yk1)) xk (-yk) ↔ nextBelow (some (xk1, yk1)) xk yk :=
  nextAbove_mirror (some (xk1, yk1)) xk yk

theorem nextBelow_none (xk yk : ℚ) : nextBelow (none : Option (ℚ × ℚ)) xk yk ↔ False :=
  Iff.rfl

theorem nextAbove_none (xk yk : ℚ) : nextAbove (none : Option (ℚ × ℚ)) xk yk ↔ False :=
  Iff.rfl

theorem one_ne_negone : ((1 : ℤ) = -1) ↔ False := by norm_num

theorem negone_ne_one : ((-1 : ℤ) = 1) ↔ False := by norm_num

theorem one_eq_one : ((1 : ℤ) = 1) ↔ True := by norm_num

theorem negone_eq_negone : ((-1 : ℤ) = -1) ↔ True := by norm_num

theorem advanceI_mirror (X Y : List ℚ) (n j k i : ℤ) :
    advanceI X (negL Y) n 1 j k i = advanceI X Y n (-1) j k i := by
  unfold advanceI
  cases hxi : getI X i with
  | none => rfl
  | some xi =>
    simp only [Option.bind_eq_bind, Option.some_bind]
    cases hxk : getI X k with
    | none => rfl
    | some xk =>
      simp only [Option.bind_eq_bind, Option.some_bind]
      rw [getI_negL]
      cases hyi : getI Y i with
      | none => rfl
      | some yi =>
        simp only [Option.map_some', Option.bind_eq_bind, Option.some_bind]
        rw [getI_negL]
        cases hyk : getI Y k with
        | none => rfl
        | some yk =>
          simp only [Option.map_some', Option.bind_eq_bind, Option.some_bind]
          by_cases hk1 : k + 1 < n
          · rw [if_pos hk1, if_pos hk1]
            cases hxk1 : getI X (k + 1) with
            | none => rfl
            | some xk1 =>
              simp only [Option.bind_eq_bind, Option.some_bind]
              rw [getI_negL]
              cases hyk1 : getI Y (k + 1) with
              | none => rfl
              | some yk1 =>
                simp only [Option.map_some', Option.bind_eq_bind, Option.some_bind,
                  Option.pure_def]
                simp only [one_ne_negone, negone_ne_one, one_eq_one,
                  negone_eq_negone, true_and, false_and, false_or, or_false,
                  neg_gt_iff, nextAbove_neg]
                by_cases hc : (xi < xk
                    ∨ equ xi xk ∧ yi < yk ∧ ¬ nextBelow (some (xk1, yk1)) xk yk) ∧ i < j
                · rw [dif_pos hc, dif_pos hc]
                  have hij : i < j := hc.2
                  exact advanceI_mirror X Y n j k (i + 1)
                · rw [dif_neg hc, dif_neg hc]
          · rw [if_neg hk1, if_neg hk1]
            simp only [Option.bind_eq_bind, Option.some_bind, Option.pure_def]
            simp only [one_ne_negone, negone_ne_one, one_eq_one,
              negone_eq_negone, true_and, false_and, false_or, or_false,
              neg_gt_iff, nextBelow_none, nextAbove_none, not_false_iff, and_true]
            by_cases hc : (xi < xk ∨ equ xi xk ∧ yi < yk) ∧ i < j
            · rw [dif_pos hc, dif_pos hc]
              have hij : i < j := hc.2
              exact advanceI_mirror X Y n j k (i + 1)
            · rw [dif_neg hc, dif_neg hc]
termination_by (j - i).toNat
decreasing_by all_goals omega

theorem findK_mirror (X Y : List ℚ) (n j kMax i iPrev k : ℤ) (y : ℚ) :
    findK X (negL Y) n 1 j kMax i iPrev k (-y)
      = (findK X Y n (-1) j kMax i iPrev k y).map
          (fun r => (r.1, r.2.1, r.2.2.1, -r.2.2.2)) := by
  unfold findK
  rw [getI_negL]
  cases hyk : getI Y k with
  | none => rfl
  | some yk =>
    simp only [Option.map_some', Option.bind_eq_bind, Option.some_bind]
    simp only [one_ne_negone, negone_ne_one, one_eq_one, negone_eq_negone,
      true_and, false_and, false_or, or_false, neg_lt_iff]
    by_cases hc : y < yk ∧ k < kMax
    · rw [dif_pos hc, dif_pos hc]
      rw [advanceI_mirror]
      cases hi' : advanceI X Y n (-1) j (k + 1) i with
      | none => rfl
      | some i' =>
        simp only [Option.bind_eq_bind, Option.some_bind]
        cases hxi : getI X i' with
        | none => rfl
        | some xi =>
          simp only [Option.bind_eq_bind, Option.some_bind]
          cases hxim1 : getI X (i' - 1) with
          | none => rfl
          | some xim1 =>
            simp only [Option.bind_eq_bind, Option.some_bind]
            by_cases hv : ¬ equ xi xim1
            · rw [if_pos hv, if_pos hv]
              rw [getI_negL]
              cases hyi : getI Y i' with
              | none => rfl
              | some yi =>
                simp only [Option.map_some', Option.bind_eq_bind, Option.some_bind]
                rw [getI_negL]
                cases hyim1 : getI Y (i' - 1) with
                | none => rfl
                | some yim1 =>
                  simp only [Option.map_some', Option.bind_eq_bind, Option.some_bind]
                  cases hxk1 : getI X (k + 1) with
                  | none => rfl
                  | some xk1 =>
                    simp only [Option.bind_eq_bind, Option.some_bind, Option.pure_def,
                      Option.some_bind]
                    rw [show (-yi - -yim1) / (xi - xim1) * (xk1 - xim1) + -yim1
                        = -((yi - yim1) / (xi - xim1) * (xk1 - xim1) + yim1) from by
                      ring]
                    exact findK_mirror X Y n j kMax i' i (k + 1) _
            · rw [if_neg hv, if_neg hv]
              rw [getI_negL]
              cases hyi : getI Y i' with
              | none => rfl
              | some yi =>
                simp only [Option.map_some', Option.bind_eq_bind, Option.some_bind,
                  Option.pure_def, Option.some_bind]
                exact findK_mirror X Y n j kMax i' i (k + 1) yi
    · rw [dif_neg hc, dif_neg hc]
      rfl
termination_by (kMax - k).toNat
decreasing_by all_goals omega

theorem advanceI2Step_mirror (X Y : List ℚ) (k i : ℤ) (y : ℚ) :
    advanceI2Step X (negL Y) 1 k i (-y)
      = (advanceI2Step X Y (-1) k i y).map
          (fun s => s.map (fun p => (p.1, -p.2)) (fun y2 => -y2)) := by
  unfold advanceI2Step
  cases hxi : getI X i with
  | none => rfl
  | some xi =>
    rw [getI_negL]
    cases hyi : getI Y i with
    | none => rfl
    | some yi =>
      simp only [Option.map_some']
      cases hxk : getI X k with
      | none => rfl
      | some xk =>
        cases hxkm1 : getI X (k - 1) with
        | none => rfl
        | some xkm1 =>
          simp only [one_ne_negone, negone_ne_one, one_eq_one, negone_eq_negone,
            true_and, false_and, false_or, or_false, neg_lt_iff]
          by_cases hc : (¬ equ xk xkm1 ∧ yi < y) ∨ (equ xk xkm1 ∧ xi < xk)
          · rw [if_pos hc, if_pos hc]
            by_cases hv : ¬ equ xk xkm1
            · rw [if_pos hv, if_pos hv]
              rw [getI_negL]
              cases hyk : getI Y k with
              | none => rfl
              | some yk =>
                simp only [Option.map_some', Option.bind_eq_bind, Option.some_bind]
                rw [getI_negL]
                cases hykm1 : getI Y (k - 1) with
                | none => rfl
                | some ykm1 =>
                  simp only [Option.map_some', Option.bind_eq_bind, Option.some_bind]
                  cases hxi1 : getI X (i + 1) with
                  | none => rfl
                  | some xi1 =>
                    simp only [Option.bind_eq_bind, Option.some_bind, Option.pure_def]
                    rw [show (-yk - -ykm1) / (xk - xkm1) * (xi1 - xkm1) + -ykm1
                        = -((yk - ykm1) / (xk - xkm1) * (xi1 - xkm1) + ykm1) from by
                      ring]
                    rfl
            · rw [if_neg hv, if_neg hv]
              rfl
          · rw [if_neg hc, if_neg hc]
            rfl

theorem advanceI2Go_mirror (X Y : List ℚ) (k : ℤ) (fuel : ℕ) (i : ℤ) (y : ℚ) :
    advanceI2Go X (negL Y) 1 k fuel i (-y)
      = (advanceI2Go X Y (-1) k fuel i y).map (fun p => (p.1, -p.2)) := by
  induction fuel generalizing i y with
  | zero => rfl
  | succ fuel ih =>
    rw [advanceI2Go, advanceI2Go, advanceI2Step_mirror]
    cases hs : advanceI2Step X Y (-1) k i y with
    | none => rfl
    | some s =>
      cases s with
      | inl r => rfl
      | inr y2 =>
        simp only [Option.map_some', Sum.map_inr]
        exact ih (i + 1) y2

theorem advanceI2_mirror (X Y : List ℚ) (k i : ℤ) (y : ℚ) :
    advanceI2 X (negL Y) 1 k i (-y)
      = (advanceI2 X Y (-1) k i y).map (fun p => (p.1, -p.2)) := by
  unfold advanceI2
  exact advanceI2Go_mirror X Y k (X.length + 1) i y

theorem intersectionPoint_mirror (X Y : List ℚ) (i3 k : ℤ) (xi3 xi3m1 xk xkm1 : ℚ) :
    intersectionPoint X (negL Y) i3 k xi3 xi3m1 xk xkm1
      = (intersectionPoint X Y i3 k xi3 xi3m1 xk xkm1).map
          (Option.map (fun p => (p.1, -p.2))) := by
  unfold intersectionPoint
  by_cases h1 : equ xi3 xi3m1 ∧ equ xk xkm1
  · rw [if_pos h1, if_pos h1]
    rfl
  · rw [if_neg h1, if_neg h1]
    by_cases h2 : equ xi3 xi3m1
    · rw [if_pos h2, if_pos h2]
      rw [getI_negL]
      cases hyk : getI Y k with
      | none => rfl
      | some yk =>
        simp only [Option.map_some', Option.bind_eq_bind, Option.some_bind]
        rw [getI_negL]
        cases hykm1 : getI Y (k - 1) with
        | none => rfl
        | some ykm1 =>
          simp only [Option.map_some', Option.bind_eq_bind, Option.some_bind,
            Option.pure_def, Option.some_inj, Option.map_some', Prod.mk.injEq]
          exact ⟨trivial, by ring⟩
    · rw [if_neg h2, if_neg h2]
      by_cases h3 : equ xk xkm1
      · rw [if_pos h3, if_pos h3]
        rw [getI_negL]
        cases hyi : getI Y i3 with
        | none => rfl
        | some yi =>
          simp only [Option.map_some', Option.bind_eq_bind, Option.some_bind]
          rw [getI_negL]
          cases hyim1 : getI Y (i3 - 1) with
          | none => rfl
          | some yim1 =>
            simp only [Option.map_some', Option.bind_eq_bind, Option.some_bind,
              Option.pure_def, Option.some_inj, Option.map_some', Prod.mk.injEq]
            exact ⟨trivial, by ring⟩
      · rw [if_neg h3, if_neg h3]
        rw [getI_negL]
        cases hyi : getI Y i3 with
        | none => rfl
        | some yi =>
          simp only [Option.map_some', Option.bind_eq_bind, Option.some_bind]
          rw [getI_negL]
          cases hyim1 : getI Y (i3 - 1) with
          | none => rfl
          | some yim1 =>
            simp only [Option.map_some', Option.bind_eq_bind, Option.some_bind]
            rw [getI_negL]
            cases hyk : getI Y k with
            | none => rfl
            | some yk =>
              simp only [Option.map_some', Option.bind_eq_bind, Option.some_bind]
              rw [getI_negL]
              cases hykm1 : getI Y (k - 1) with
              | none => rfl
              | some ykm1 =>
                simp only [Option.map_some', Option.bind_eq_bind, Option.some_bind]
                have ha1 : (-yi - -yim1) / (xi3 - xi3m1)
                    = -((yi - yim1) / (xi3 - xi3m1)) := by ring
                have ha2 : (-yk - -ykm1) / (xk - xkm1)
                    = -((yk - ykm1) / (xk - xkm1)) := by ring
                simp only [ha1, ha2, equ_neg]
                set A := (yi - yim1) / (xi3 - xi3m1) with hA
                set B := (yk - ykm1) / (xk - xkm1) with hB
                by_cases hne : ¬ equ A B
                · rw [if_pos hne, if_pos hne]
                  have hix : (-A * xi3m1 - -B * xkm1 - -yim1 + -ykm1) / (-A - -B)
                      = (A * xi3m1 - B * xkm1 - yim1 + ykm1) / (A - B) := by
                    rw [show -A * xi3m1 - -B * xkm1 - -yim1 + -ykm1
                        = -(A * xi3m1 - B * xkm1 - yim1 + ykm1) from by ring,
                      show -A - -B = -(A - B) from by ring, neg_div_neg_eq]
                  rw [hix]
                  simp only [abs_neg]
                  by_cases habs : |A| > |B|
                  · rw [if_pos habs, if_pos habs]
                    simp only [Option.pure_def, Option.map_some', Option.some_inj,
                      Prod.mk.injEq]
                    exact ⟨trivial, by ring⟩
                  · rw [if_neg habs, if_neg habs]
                    simp only [Option.pure_def, Option.map_some', Option.some_inj,
                      Prod.mk.injEq]
                    exact ⟨trivial, by ring⟩
                · rw [if_neg hne, if_neg hne]
                  rfl

theorem insertStep_mirror (XX YY : List ℚ) (n1 i3 : ℤ) (ipt : Option (ℚ × ℚ)) :
    insertStep XX (negL YY) n1 i3 (ipt.map (fun p => (p.1, -p.2)))
      = (insertStep XX YY n1 i3 ipt).map (fun s => (s.1, negL s.2.1, s.2.2)) := by
  unfold insertStep
  cases ipt with
  | none => rfl
  | some p =>
    simp only [Option.map_some']
    cases hxxi : getI XX i3 with
    | none => rfl
    | some xxi =>
      simp only [Option.bind_eq_bind, Option.some_bind]
      rw [getI_negL]
      cases hyyi : getI YY i3 with
      | none => rfl
      | some yyi =>
        simp only [Option.map_some', Option.bind_eq_bind, Option.some_bind, equ_neg]
        by_cases hc : ¬ equ xxi p.1 ∨ ¬ equ yyi p.2
        · rw [if_pos hc, if_pos hc]
          cases hX2 : insertAt XX n1 i3 p.1 with
          | none => rfl
          | some X2 =>
            simp only [Option.bind_eq_bind, Option.some_bind]
            rw [insertAt_negL]
            cases hY2 : insertAt YY n1 i3 p.2 with
            | none => rfl
            | some Y2 =>
              simp only [Option.map_some', Option.bind_eq_bind, Option.some_bind]
              rfl
        · rw [if_neg hc, if_neg hc]
          rfl

/-- Vertical mirroring of a `LoopStep` (negate the ordinate array). -/
def negStep (s : LoopStep) : LoopStep :=
  match s with
  | .done X Y n => .done X (negL Y) n
  | .next X Y n j => .next X (negL Y) n j

theorem dedupStep_mirror (X2 Y2 : List ℚ) (n2 i3 : ℤ) :
    dedupStep X2 (negL Y2) n2 i3 = (dedupStep X2 Y2 n2 i3).map negStep := by
  unfold dedupStep
  cases hxdm1 : getI X2 (i3 - 1) with
  | none => rfl
  | some xdm1 =>
    simp only [Option.bind_eq_bind, Option.some_bind]
    cases hxd : getI X2 i3 with
    | none => rfl
    | some xd =>
      simp only [Option.bind_eq_bind, Option.some_bind]
      rw [getI_negL]
      cases hydm1 : getI Y2 (i3 - 1) with
      | none => rfl
      | some ydm1 =>
        simp only [Option.map_some', Option.bind_eq_bind, Option.some_bind]
        rw [getI_negL]
        cases hyd : getI Y2 i3 with
        | none => rfl
        | some yd =>
          simp only [Option.map_some', Option.bind_eq_bind, Option.some_bind, equ_neg]
          by_cases hc : equ xdm1 xd ∧ equ ydm1 yd
          · rw [if_pos hc, if_pos hc]
            cases hX3 : removeAt X2 n2 i3 with
            | none => rfl
            | some X3 =>
              simp only [Option.bind_eq_bind, Option.some_bind]
              rw [removeAt_negL]
              cases hY3 : removeAt Y2 n2 i3 with
              | none => rfl
              | some Y3 =>
                simp only [Option.map_some', Option.bind_eq_bind, Option.some_bind]
                rfl
          · rw [if_neg hc, if_neg hc]
            rfl

theorem resolveLoop_mirror (X Y : List ℚ) (n j : ℤ) :
    resolveLoop 1 X (negL Y) n j = (resolveLoop (-1) X Y n j).map negStep := by
  unfold resolveLoop
  cases hi0 : findEntry X j j with
  | none => rfl
  | some i0 =>
    repeat first | rw [Option.map_some'] | rw [Option.bind_eq_bind] | rw [Option.some_bind] | rw [Option.pure_def]
    cases hkMax : findKMax X j n (j + 1) with
    | none => rfl
    | some kMax =>
      repeat first | rw [Option.map_some'] | rw [Option.bind_eq_bind] | rw [Option.some_bind] | rw [Option.pure_def]
      rw [getI_negL]
      cases hy0 : getI Y (i0 - 1) with
      | none => rfl
      | some y0 =>
        repeat first | rw [Option.map_some'] | rw [Option.bind_eq_bind] | rw [Option.some_bind] | rw [Option.pure_def]
        rw [findK_mirror]
        cases hr : findK X Y n (-1) j kMax i0 j (j + 1) y0 with
        | none => rfl
        | some r =>
          repeat first | rw [Option.map_some'] | rw [Option.bind_eq_bind] | rw [Option.some_bind] | rw [Option.pure_def]
          dsimp only
          cases hxk : getI X r.2.2.1 with
          | none => rfl
          | some xk =>
            repeat first | rw [Option.map_some'] | rw [Option.bind_eq_bind] | rw [Option.some_bind] | rw [Option.pure_def]
            cases hxkm1 : getI X (r.2.2.1 - 1) with
            | none => rfl
            | some xkm1 =>
              repeat first | rw [Option.map_some'] | rw [Option.bind_eq_bind] | rw [Option.some_bind] | rw [Option.pure_def]
              by_cases hv : ¬ equ xk xkm1
              · rw [if_pos hv, if_pos hv]
                rw [getI_negL]
                cases hyk : getI Y r.2.2.1 with
                | none => rfl
                | some yk =>
                  repeat first | rw [Option.map_some'] | rw [Option.bind_eq_bind] | rw [Option.some_bind] | rw [Option.pure_def]
                  rw [getI_negL]
                  cases hykm1 : getI Y (r.2.2.1 - 1) with
                  | none => rfl
                  | some ykm1 =>
                    repeat first | rw [Option.map_some'] | rw [Option.bind_eq_bind] | rw [Option.some_bind] | rw [Option.pure_def]
                    cases hxi2 : getI X (if r.2.1 > 1 then r.2.1 - 1 else r.2.1) with
                    | none => rfl
                    | some xi2 =>
                      repeat first | rw [Option.map_some'] | rw [Option.bind_eq_bind] | rw [Option.some_bind] | rw [Option.pure_def]
                      rw [show (-yk - -ykm1) / (xk - xkm1) * (xi2 - xkm1) + -ykm1
                          = -((yk - ykm1) / (xk - xkm1) * (xi2 - xkm1) + ykm1) from by
                        ring]
                      rw [advanceI2_mirror]
                      cases hr2 : advanceI2 X Y (-1) r.2.2.1
                          (if r.2.1 > 1 then r.2.1 - 1 else r.2.1)
                          ((yk - ykm1) / (xk - xkm1) * (xi2 - xkm1) + ykm1) with
                      | none => rfl
                      | some r2 =>
                        repeat first | rw [Option.map_some'] | rw [Option.bind_eq_bind] | rw [Option.some_bind] | rw [Option.pure_def]
                        dsimp only
                        cases hxi3 : getI X r2.1 with
                        | none => rfl
                        | some xi3 =>
                          repeat first | rw [Option.map_some'] | rw [Option.bind_eq_bind] | rw [Option.some_bind] | rw [Option.pure_def]
                          cases hxi3m1 : getI X (r2.1 - 1) with
                          | none => rfl
                          | some xi3m1 =>
                            repeat first | rw [Option.map_some'] | rw [Option.bind_eq_bind] | rw [Option.some_bind] | rw [Option.pure_def]
                            rw [intersectionPoint_mirror]
                            cases hipt : intersectionPoint X Y r2.1 r.2.2.1 xi3
                                xi3m1 xk xkm1 with
                            | none => rfl
                            | some ipt =>
                              repeat first | rw [Option.map_some'] | rw [Option.bind_eq_bind] | rw [Option.some_bind] | rw [Option.pure_def]
                              cases hXX : removeRange X n r2.1 (r.2.2.1 - r2.1) with
                              | none => rfl
                              | some XX =>
                                repeat first | rw [Option.map_some'] | rw [Option.bind_eq_bind] | rw [Option.some_bind] | rw [Option.pure_def]
                                rw [removeRange_negL]
                                cases hYY : removeRange Y n r2.1 (r.2.2.1 - r2.1) with
                                | none => rfl
                                | some YY =>
                                  repeat first | rw [Option.map_some'] | rw [Option.bind_eq_bind] | rw [Option.some_bind] | rw [Option.pure_def]
                                  rw [insertStep_mirror]
                                  cases hs : insertStep XX YY (n - (r.2.2.1 - r2.1))
                                      r2.1 ipt with
                                  | none => rfl
                                  | some s =>
                                    repeat first | rw [Option.map_some'] | rw [Option.bind_eq_bind] | rw [Option.some_bind] | rw [Option.pure_def]
                                    dsimp only
                                    exact dedupStep_mirror s.1 s.2.1 s.2.2 r2.1
              · rw [if_neg hv, if_neg hv]
                repeat first | rw [Option.map_some'] | rw [Option.bind_eq_bind] | rw [Option.some_bind] | rw [Option.pure_def]
                rw [advanceI2_mirror]
                cases hr2 : advanceI2 X Y (-1) r.2.2.1
                    (if r.2.1 > 1 then r.2.1 - 1 else r.2.1) r.2.2.2 with
                | none => rfl
                | some r2 =>
                  repeat first | rw [Option.map_some'] | rw [Option.bind_eq_bind] | rw [Option.some_bind] | rw [Option.pure_def]
                  dsimp only
                  cases hxi3 : getI X r2.1 with
                  | none => rfl
                  | some xi3 =>
                    repeat first | rw [Option.map_some'] | rw [Option.bind_eq_bind] | rw [Option.some_bind] | rw [Option.pure_def]
                    cases hxi3m1 : getI X (r2.1 - 1) with
                    | none => rfl
                    | some xi3m1 =>
                      repeat first | rw [Option.map_some'] | rw [Option.bind_eq_bind] | rw [Option.some_bind] | rw [Option.pure_def]
                      rw [intersectionPoint_mirror]
                      cases hipt : intersectionPoint X Y r2.1 r.2.2.1 xi3
                          xi3m1 xk xkm1 with
                      | none => rfl
                      | some ipt =>
                        repeat first | rw [Option.map_some'] | rw [Option.bind_eq_bind] | rw [Option.some_bind] | rw [Option.pure_def]
                        cases hXX : removeRange X n r2.1 (r.2.2.1 - r2.1) with
                        | none => rfl
                        | some XX =>
                          repeat first | rw [Option.map_some'] | rw [Option.bind_eq_bind] | rw [Option.some_bind] | rw [Option.pure_def]
                          rw [removeRange_negL]
                          cases hYY : removeRange Y n r2.1 (r.2.2.1 - r2.1) with
                          | none => rfl
                          | some YY =>
                            repeat first | rw [Option.map_some'] | rw [Option.bind_eq_bind] | rw [Option.some_bind] | rw [Option.pure_def]
                            rw [insertStep_mirror]
                            cases hs : insertStep XX YY (n - (r.2.2.1 - r2.1))
                                r2.1 ipt with
                            | none => rfl
                            | some s =>
                              repeat first | rw [Option.map_some'] | rw [Option.bind_eq_bind] | rw [Option.some_bind] | rw [Option.pure_def]
                              dsimp only
                              exact dedupStep_mirror s.1 s.2.1 s.2.2 r2.1

theorem removeLoopStep_mirror (X Y : List ℚ) (n j : ℤ) :
    removeLoopStep 1 X (negL Y) n j = (removeLoopStep (-1) X Y n j).map negStep := by
  unfold removeLoopStep
  by_cases hj : j < n - 2
  · rw [if_pos hj, if_pos hj]
    cases hxj : getI X j with
    | none => rfl
    | some xj =>
      simp only [Option.bind_eq_bind, Option.some_bind]
      cases hxj1 : getI X (j + 1) with
      | none => rfl
      | some xj1 =>
        simp only [Option.bind_eq_bind, Option.some_bind]
        by_cases hlt : xj1 < xj
        · rw [if_pos hlt, if_pos hlt]
          exact resolveLoop_mirror X Y n j
        · rw [if_neg hlt, if_neg hlt]
          rfl
  · rw [if_neg hj, if_neg hj]
    rfl

theorem removeLoopGo_mirror (fuel : ℕ) (X Y : List ℚ) (n j : ℤ) :
    removeLoopGo 1 fuel X (negL Y) n j
      = (removeLoopGo (-1) fuel X Y n j).map
          (fun r => (r.1, negL r.2.1, r.2.2)) := by
  induction fuel generalizing X Y n j with
  | zero => rfl
  | succ fuel ih =>
    rw [removeLoopGo, removeLoopGo, removeLoopStep_mirror]
    cases hs : removeLoopStep (-1) X Y n j with
    | none => rfl
    | some s =>
      cases s with
      | done X2 Y2 n2 => rfl
      | next X2 Y2 n2 j2 =>
        simp only [Option.map_some']
        exact ih X2 Y2 n2 (j2 + 1)

theorem removeLoop_mirror (X Y : List ℚ) (size : ℤ) :
    removeLoop X (negL Y) size 1
      = (removeLoop X Y size (-1)).map (fun d => ⟨d.x, negL d.y, d.n⟩) := by
  unfold removeLoop
  rw [removeLoopGo_mirror]
  cases h : removeLoopGo (-1) (removeLoopFuel size) X Y size 1 with
  | none => rfl
  | some r => rfl

/-- C9: running the upper-side builder (`calculateUpper`) on the vertically
mirrored reference (every y negated) produces exactly the polyline obtained by
running the lower-side builder (`calculateLower`) on the original reference and
negating every emitted y — identical x values, identical length, point for
point (and the two sides fail on exactly the same inputs). -/
theorem C9_side_symmetry (reference : Data) (ts : List ℚ) :
    calculateUpper ⟨reference.x, negL reference.y, reference.n⟩ ts
      = (calculateLower reference ts).map (fun d => ⟨d.x, negL d.y, d.n⟩) := by
  unfold calculateUpper calculateLower
  dsimp only
  cases hxl : ts.get? 0 with
  | none => rfl
  | some xLen =>
    repeat first | rw [Option.map_some'] | rw [Option.bind_eq_bind] | rw [Option.some_bind] | rw [Option.pure_def]
    cases hyl : ts.get? 1 with
    | none => rfl
    | some yLen =>
      repeat first | rw [Option.map_some'] | rw [Option.bind_eq_bind] | rw [Option.some_bind] | rw [Option.pure_def]
      rw [skipDup_negL]
      cases hb : skipDup reference.x reference.y 0 with
      | none => rfl
      | some b =>
        repeat first | rw [Option.map_some'] | rw [Option.bind_eq_bind] | rw [Option.some_bind] | rw [Option.pure_def]
        cases hxb : reference.x.get? b with
        | none => rfl
        | some xb =>
          repeat first | rw [Option.map_some'] | rw [Option.bind_eq_bind] | rw [Option.some_bind] | rw [Option.pure_def]
          cases hxb1 : reference.x.get? (b + 1) with
          | none => rfl
          | some xb1 =>
            repeat first | rw [Option.map_some'] | rw [Option.bind_eq_bind] | rw [Option.some_bind] | rw [Option.pure_def]
            rw [get?_negL]
            cases hyb : reference.y.get? b with
            | none => rfl
            | some yb =>
              repeat first | rw [Option.map_some'] | rw [Option.bind_eq_bind] | rw [Option.some_bind] | rw [Option.pure_def]
              rw [get?_negL]
              cases hyb1 : reference.y.get? (b + 1) with
              | none => rfl
              | some yb1 =>
                repeat first | rw [Option.map_some'] | rw [Option.bind_eq_bind] | rw [Option.some_bind] | rw [Option.pure_def]
                have hskip : ¬ (equ xb xb1 ∧ equ yb yb1) :=
                  skipDup_post reference.x reference.y 0 b xb xb1 yb yb1 hb
                    hxb hxb1 hyb hyb1
                rw [slope_mirror xb xb1 yb yb1 hskip]
                rw [show -yb1 - -yb = -(yb1 - yb) from by ring, sign_neg_mirror]
                simp only [equ_negone]
                rw [show -yb + yLen = -(yb - yLen) from by ring]
                rw [show ([-(yb - yLen), -(yb - yLen)] : List ℚ)
                    = negL [yb - yLen, yb - yLen] from (negL_pair _ _).symm]
                rw [show ([-(yb - yLen)] : List ℚ)
                    = negL [yb - yLen] from (negL_singleton _).symm]
                rw [← apply_ite negL]
                rw [iter_mirror reference xLen yLen ((b : ℤ) + 1)
                  (sign (yb1 - yb))
                  (if ¬ equ xb1 xb then (yb1 - yb) / (xb1 - xb)
                   else if sign (yb1 - yb) > 0 then bigSlope else -bigSlope)
                  (if equ (sign (yb1 - yb)) 1 then [xb - xLen, xb + xLen]
                   else [xb - xLen])
                  (if equ (sign (yb1 - yb)) 1 then [yb - yLen, yb - yLen]
                   else [yb - yLen])
                  (sign_vals (yb1 - yb)) (slope_inv xb xb1 yb yb1 hskip)]
                cases hr : lowerIter reference xLen yLen ((b : ℤ) + 1)
                    (sign (yb1 - yb))
                    (if ¬ equ xb1 xb then (yb1 - yb) / (xb1 - xb)
                     else if sign (yb1 - yb) > 0 then bigSlope else -bigSlope)
                    (if equ (sign (yb1 - yb)) 1 then [xb - xLen, xb + xLen]
                     else [xb - xLen])
                    (if equ (sign (yb1 - yb)) 1 then [yb - yLen, yb - yLen]
                     else [yb - yLen]) with
                | none => rfl
                | some r =>
                  repeat first | rw [Option.map_some'] | rw [Option.bind_eq_bind] | rw [Option.some_bind] | rw [Option.pure_def]
                  dsimp only
                  cases hxll : getI reference.x (reference.n - 1) with
                  | none => rfl
                  | some xl =>
                    repeat first | rw [Option.map_some'] | rw [Option.bind_eq_bind] | rw [Option.some_bind] | rw [Option.pure_def]
                    rw [getI_negL]
                    cases hyll : getI reference.y (reference.n - 1) with
                    | none => rfl
                    | some yl =>
                      repeat first | rw [Option.map_some'] | rw [Option.bind_eq_bind] | rw [Option.some_bind] | rw [Option.pure_def]
                      simp only [equ_neg_one]
                      rw [show -yl + yLen = -(yl - yLen) from by ring]
                      by_cases hre : equ r.1 (-1)
                      · rw [if_pos hre, if_pos hre, if_pos hre]
                        rw [show negL r.2.2 ++ [-(yl - yLen)] ++ [-(yl - yLen)]
                            = negL (r.2.2 ++ [yl - yLen] ++ [yl - yLen]) from by
                          simp only [negL_append, negL_singleton]]
                        rw [negL_length]
                        exact removeLoop_mirror _ _ _
                      · rw [if_neg hre, if_neg hre, if_neg hre]
                        rw [show negL r.2.2 ++ [-(yl - yLen)]
                            = negL (r.2.2 ++ [yl - yLen]) from by
                          simp only [negL_append, negL_singleton]]
                        rw [negL_length]
                        exact removeLoop_mirror _ _ _
